import Mathlib

/-!
Verification of the dynamic script loader, environment switch, component
bootstrap and component controllers of the wesley-webflow-site repository,
against a shallow embedding of the TypeScript sources.

The DOM, browser event loop and third-party players are modelled explicitly:
pure functions embed the pure computations of the source, and stateful code
becomes explicit state passing over small state structures.
-/

namespace Wesley

/-! ## Resource Loader (`src/entry.ts`) -/

/-- A script element attached to the document: its `src` attribute and the
placement (`head` or `body`) it was appended to. -/
structure ScriptEl where
  src : String
  placement : String
  deriving DecidableEq, Repr

/-- The outcome of the promise returned by one `window.loadScript` call:
already settled, or still waiting for the network fetch of a given `src`. -/
inductive PromiseResult where
  | resolved : PromiseResult
  | rejected : String → PromiseResult
  | pending : String → PromiseResult
  deriving DecidableEq, Repr

/-- A `scriptLoaded:...` CustomEvent dispatched on `document`
(`src/entry.ts` lines 76-82): carries the name and the resolved url. -/
structure ScriptLoadedEvent where
  name : String
  url : String
  deriving DecidableEq, Repr

/-- The document / network state touched by `window.loadScript`:
the attached script elements, the number of network fetches started so far,
and the `scriptLoaded` events dispatched so far. -/
structure LoaderState where
  scripts : List ScriptEl
  fetches : Nat
  events : List ScriptLoadedEvent
  deriving DecidableEq, Repr

/-- The options object of `window.loadScript` (`ScriptOptions` in
`src/entry.ts`), restricted to the fields the loader reads. -/
structure ScriptOptions where
  placement : String
  name : Option String
  deriving DecidableEq, Repr

/-- The defaulted options: `placement: 'body', name: undefined`
(`src/entry.ts` lines 50-54). -/
def defaultScriptOptions : ScriptOptions :=
  { placement := "body", name := none }

/-- Whether `sub` occurs somewhere in `cs`, checked position by position. -/
def charsInclude : List Char → List Char → Bool
  | [], sub => sub.isEmpty
  | c :: rest, sub => sub.isPrefixOf (c :: rest) || charsInclude rest sub

/-- Whether `sub` occurs inside `s`, as `String.prototype.includes`. -/
def jsIncludes (s sub : String) : Bool :=
  charsInclude s.data sub.data

/-- The `getProductionBase` helper of `src/entry.ts` lines 21-24. -/
def getProductionBase (branch : String) : String :=
  let branchPrefix := if branch = "" then "" else "@" ++ branch
  "https://cdn.jsdelivr.net/gh/igniteagency/\x7b\x7brepo\x7d\x7d" ++ branchPrefix ++ "/dist/prod/"

/-- The `window.PRODUCTION_BASE` assignment of `src/entry.ts` lines 26-28:
the branch segment depends on whether the hostname contains `webflow.io`. -/
def PRODUCTION_BASE (hostname : String) : String :=
  if !(jsIncludes hostname "webflow.io") then getProductionBase "" else getProductionBase "dev"

/-- Modelled from the spec: the `LOCAL_SERVER` constant imported from
`$dev/env` (`src/entry.ts` line 3), whose file is not part of the source
tree.  Spec section 4.2: local mode selects "a fixed local development
origin". -/
def LOCAL_SERVER : String := "http://localhost:3000/"

/-- The `relativePathBase` module-level constant of `src/entry.ts` line 30.
It is computed exactly once, when the entry module is evaluated, from the
value of `window.SCRIPTS_ENV` current at that moment. -/
def relativePathBase (envAtEntryEval : String) (productionBase : String) : String :=
  if envAtEntryEval = "local" then LOCAL_SERVER else productionBase

/-- The `isAbsolute` test inside `window.loadScript` (`src/entry.ts` line 62):
`url.startsWith('https://')`. -/
def isAbsolute (url : String) : Bool :=
  "https://".data.isPrefixOf url.data

/-- The `finalUrl` resolution inside `window.loadScript`
(`src/entry.ts` line 63): absolute urls pass through, relative urls are
prefixed with the captured base. -/
def finalUrl (base url : String) : String :=
  if isAbsolute url then url else base ++ url

/-- The duplicate check of `window.loadScript` (`src/entry.ts` line 65):
`document.querySelector('script[src="..."]')` finds an attached script
element whose `src` attribute is exactly the resolved url. -/
def hasScriptFor (s : LoaderState) (u : String) : Bool :=
  s.scripts.any (fun el => el.src == u)

/-- One call to `window.loadScript` (`src/entry.ts` lines 49-89).  If a
script element with the resolved url is already attached, the promise
resolves immediately and nothing changes.  Otherwise the script element is
created and appended synchronously inside the promise executor (line 87),
the network fetch starts, and the promise stays pending until the fetch
settles it through `onload` / `onerror`. -/
def loadScript (base url : String) (opts : ScriptOptions) (s : LoaderState) :
    LoaderState × PromiseResult :=
  let fu := finalUrl base url
  if hasScriptFor s fu then
    (s, PromiseResult.resolved)
  else
    ({ s with
        scripts := s.scripts ++ [{ src := fu, placement := opts.placement }],
        fetches := s.fetches + 1 },
     PromiseResult.pending fu)

/-- The fetch of a pending script settles: on success `onload` runs
(`src/entry.ts` lines 75-84), dispatching the named `scriptLoaded` event
when a name was supplied and resolving the promise; on failure `onerror`
runs (line 85), rejecting with the descriptive message.  The script element
stays attached in both cases. -/
def settleLoad (success : Bool) (opts : ScriptOptions) (p : PromiseResult)
    (s : LoaderState) : LoaderState × PromiseResult :=
  match p with
  | PromiseResult.pending src =>
    if success then
      (match opts.name with
       | some n => { s with events := s.events ++ [{ name := n, url := src }] }
       | none => s,
       PromiseResult.resolved)
    else
      (s, PromiseResult.rejected ("Failed to load script: " ++ src))
  | settled => (s, settled)

/-- Number of attached script elements whose `src` is `u`. -/
def countScriptsFor (s : LoaderState) (u : String) : Nat :=
  (s.scripts.filter (fun el => el.src == u)).length

theorem hasScriptFor_false_of_count_zero (s : LoaderState) (u : String)
    (h : countScriptsFor s u = 0) : hasScriptFor s u = false := by
  unfold countScriptsFor at h
  unfold hasScriptFor
  rw [List.length_eq_zero] at h
  rw [List.any_eq_false]
  intro el hel
  intro hsrc
  have : el ∈ s.scripts.filter (fun el => el.src == u) := by
    rw [List.mem_filter]
    exact ⟨hel, hsrc⟩
  rw [h] at this
  exact absurd this (List.not_mem_nil el)

theorem countScriptsFor_append_one (s : LoaderState) (u : String) (el : ScriptEl)
    (h : countScriptsFor s u = 0) (hel : el.src == u) :
    ((s.scripts ++ [el]).filter (fun e => e.src == u)).length = 1 := by
  rw [List.filter_append]
  unfold countScriptsFor at h
  rw [List.length_append, h]
  simp [List.filter, hel]

/-- C1.  Idempotent load: starting from a document with no script element for
the resolved url, a first `loadScript` call attaches the element and starts
the fetch; a second call while the first is still in flight resolves
immediately without touching the document; a successful fetch resolves the
first promise; a later sequential call also resolves immediately.  Exactly
one element for the resolved url is attached, exactly one fetch was started,
and every returned promise resolves. -/
theorem loadScript_idempotent (base url : String) (opts : ScriptOptions) (s : LoaderState)
    (h0 : countScriptsFor s (finalUrl base url) = 0)
    (s1 : LoaderState) (p1 : PromiseResult)
    (h1 : loadScript base url opts s = (s1, p1))
    (s2 : LoaderState) (p2 : PromiseResult)
    (h2 : loadScript base url opts s1 = (s2, p2))
    (s3 : LoaderState) (p1f : PromiseResult)
    (h3 : settleLoad true opts p1 s2 = (s3, p1f))
    (s4 : LoaderState) (p3 : PromiseResult)
    (h4 : loadScript base url opts s3 = (s4, p3)) :
    p2 = PromiseResult.resolved ∧
    p1f = PromiseResult.resolved ∧
    p3 = PromiseResult.resolved ∧
    countScriptsFor s4 (finalUrl base url) = 1 ∧
    s4.fetches = s.fetches + 1 ∧
    s4.scripts = s1.scripts := by
  have hfu : hasScriptFor s (finalUrl base url) = false :=
    hasScriptFor_false_of_count_zero s (finalUrl base url) h0
  simp only [loadScript, hfu, Bool.false_eq_true, if_false, Prod.mk.injEq] at h1
  obtain ⟨hs1, hp1⟩ := h1
  have hs1scripts : s1.scripts = s.scripts ++ [{ src := finalUrl base url, placement := opts.placement }] := by
    rw [← hs1]
  have hs1fetches : s1.fetches = s.fetches + 1 := by rw [← hs1]
  have hhas1 : hasScriptFor s1 (finalUrl base url) = true := by
    unfold hasScriptFor
    rw [hs1scripts, List.any_append]
    simp
  simp only [loadScript, hhas1, if_true, Prod.mk.injEq] at h2
  obtain ⟨hs2, hp2⟩ := h2
  rw [← hp1] at h3
  simp only [settleLoad, if_true] at h3
  have hs3 : s3.scripts = s2.scripts ∧ s3.fetches = s2.fetches ∧ p1f = PromiseResult.resolved := by
    cases hn : opts.name with
    | none =>
      rw [hn] at h3
      simp only [Prod.mk.injEq] at h3
      obtain ⟨h3a, h3b⟩ := h3
      rw [← h3a]
      exact ⟨rfl, rfl, h3b.symm⟩
    | some n =>
      rw [hn] at h3
      simp only [Prod.mk.injEq] at h3
      obtain ⟨h3a, h3b⟩ := h3
      rw [← h3a]
      exact ⟨rfl, rfl, h3b.symm⟩
  have hhas3 : hasScriptFor s3 (finalUrl base url) = true := by
    unfold hasScriptFor
    rw [hs3.1, ← hs2, hs1scripts, List.any_append]
    simp
  simp only [loadScript, hhas3, if_true, Prod.mk.injEq] at h4
  obtain ⟨hs4, hp3⟩ := h4
  refine ⟨hp2.symm, hs3.2.2, hp3.symm, ?_, ?_, ?_⟩
  · unfold countScriptsFor
    rw [← hs4, hs3.1, ← hs2, hs1scripts]
    exact countScriptsFor_append_one s (finalUrl base url) _ h0 (by simp)
  · rw [← hs4, hs3.2.1, ← hs2, hs1fetches]
  · rw [← hs4, hs3.1, ← hs2]

theorem loadScript_idempotent_witness :
    countScriptsFor ⟨[], 0, []⟩ (finalUrl "b/" "u.js") = 0 ∧
    (PromiseResult.resolved = PromiseResult.resolved ∧
     PromiseResult.resolved = PromiseResult.resolved ∧
     PromiseResult.resolved = PromiseResult.resolved ∧
     countScriptsFor ⟨[⟨"b/u.js", "body"⟩], 1, []⟩ (finalUrl "b/" "u.js") = 1 ∧
     (⟨[⟨"b/u.js", "body"⟩], 1, []⟩ : LoaderState).fetches = (⟨[], 0, []⟩ : LoaderState).fetches + 1 ∧
     (⟨[⟨"b/u.js", "body"⟩], 1, []⟩ : LoaderState).scripts = (⟨[⟨"b/u.js", "body"⟩], 1, []⟩ : LoaderState).scripts) :=
  ⟨by decide,
   loadScript_idempotent "b/" "u.js" defaultScriptOptions ⟨[], 0, []⟩ (by decide)
     ⟨[⟨"b/u.js", "body"⟩], 1, []⟩ (PromiseResult.pending "b/u.js") (by decide)
     ⟨[⟨"b/u.js", "body"⟩], 1, []⟩ PromiseResult.resolved (by decide)
     ⟨[⟨"b/u.js", "body"⟩], 1, []⟩ PromiseResult.resolved (by decide)
     ⟨[⟨"b/u.js", "body"⟩], 1, []⟩ PromiseResult.resolved (by decide)⟩

/-- C10.  Failed loads are never retried: when the fetch fails, the promise
rejects with the descriptive message but the script element stays attached,
so a later `loadScript` call for the same url finds it through the duplicate
check and resolves immediately — no new element, no new fetch — and no
`scriptLoaded` event is ever dispatched for that url. -/
theorem loadScript_failure_no_retry (base url : String) (opts : ScriptOptions) (s : LoaderState)
    (h0 : countScriptsFor s (finalUrl base url) = 0)
    (s1 : LoaderState) (p1 : PromiseResult)
    (h1 : loadScript base url opts s = (s1, p1))
    (s2 : LoaderState) (p1f : PromiseResult)
    (h3 : settleLoad false opts p1 s1 = (s2, p1f))
    (s3 : LoaderState) (p2 : PromiseResult)
    (h4 : loadScript base url opts s2 = (s3, p2)) :
    p1f = PromiseResult.rejected ("Failed to load script: " ++ finalUrl base url) ∧
    p2 = PromiseResult.resolved ∧
    s3 = s2 ∧
    countScriptsFor s3 (finalUrl base url) = 1 ∧
    s3.fetches = s.fetches + 1 ∧
    s3.events = s.events := by
  have hfu : hasScriptFor s (finalUrl base url) = false :=
    hasScriptFor_false_of_count_zero s (finalUrl base url) h0
  simp only [loadScript, hfu, Bool.false_eq_true, if_false, Prod.mk.injEq] at h1
  obtain ⟨hs1, hp1⟩ := h1
  rw [← hp1] at h3
  simp only [settleLoad, Bool.false_eq_true, if_false, Prod.mk.injEq] at h3
  obtain ⟨hs2, hp1f⟩ := h3
  have hs2scripts : s2.scripts = s.scripts ++ [{ src := finalUrl base url, placement := opts.placement }] := by
    rw [← hs2, ← hs1]
  have hhas2 : hasScriptFor s2 (finalUrl base url) = true := by
    unfold hasScriptFor
    rw [hs2scripts, List.any_append]
    simp
  simp only [loadScript, hhas2, if_true, Prod.mk.injEq] at h4
  obtain ⟨hs3, hp2⟩ := h4
  refine ⟨hp1f.symm, hp2.symm, hs3.symm, ?_, ?_, ?_⟩
  · unfold countScriptsFor
    rw [← hs3, hs2scripts]
    exact countScriptsFor_append_one s (finalUrl base url) _ h0 (by simp)
  · rw [← hs3, ← hs2, ← hs1]
  · rw [← hs3, ← hs2, ← hs1]

theorem loadScript_failure_no_retry_witness :
    countScriptsFor ⟨[], 0, []⟩ (finalUrl "b/" "u.js") = 0 ∧
    (PromiseResult.rejected ("Failed to load script: " ++ finalUrl "b/" "u.js")
       = PromiseResult.rejected ("Failed to load script: " ++ finalUrl "b/" "u.js") ∧
     PromiseResult.resolved = PromiseResult.resolved ∧
     (⟨[⟨"b/u.js", "body"⟩], 1, []⟩ : LoaderState) = ⟨[⟨"b/u.js", "body"⟩], 1, []⟩ ∧
     countScriptsFor ⟨[⟨"b/u.js", "body"⟩], 1, []⟩ (finalUrl "b/" "u.js") = 1 ∧
     (⟨[⟨"b/u.js", "body"⟩], 1, []⟩ : LoaderState).fetches = (⟨[], 0, []⟩ : LoaderState).fetches + 1 ∧
     (⟨[⟨"b/u.js", "body"⟩], 1, []⟩ : LoaderState).events = (⟨[], 0, []⟩ : LoaderState).events) :=
  ⟨by decide,
   loadScript_failure_no_retry "b/" "u.js" defaultScriptOptions ⟨[], 0, []⟩ (by decide)
     ⟨[⟨"b/u.js", "body"⟩], 1, []⟩ (PromiseResult.pending "b/u.js") (by decide)
     ⟨[⟨"b/u.js", "body"⟩], 1, []⟩
     (PromiseResult.rejected ("Failed to load script: " ++ finalUrl "b/" "u.js")) (by decide)
     ⟨[⟨"b/u.js", "body"⟩], 1, []⟩ PromiseResult.resolved (by decide)⟩

/-! ## Environment Resolver (`src/entry.ts` lines 26-32, `window.setScriptMode`) -/

/-- The page-level state around the loader: the current `window.SCRIPTS_ENV`
value, the module-level `relativePathBase` constant captured when the entry
module was evaluated (`src/entry.ts` lines 30-32, also exposed as
`window.SCRIPT_BASE`), and the loader / document state. -/
structure PageState where
  scriptsEnv : String
  capturedBase : String
  loader : LoaderState
  deriving DecidableEq, Repr

/-- Evaluation of the entry module (`src/entry.ts` lines 26-32): the
production base is derived from the hostname and `relativePathBase` is
computed once from the `window.SCRIPTS_ENV` value current at that moment. -/
def entryInit (hostname initialEnv : String) (l : LoaderState) : PageState :=
  { scriptsEnv := initialEnv,
    capturedBase := relativePathBase initialEnv (PRODUCTION_BASE hostname),
    loader := l }

/-- Modelled from the spec: `window.setScriptMode` is declared in
`src/types/global.d.ts` line 52 but implemented in `$dev/env`, which is not
part of the source tree.  Spec sections 3 and 4.2: the Environment Mode is
process-wide, mutable at runtime, persisted only in memory; `setMode(mode)`
switches it.  The switch mutates `window.SCRIPTS_ENV` and nothing else. -/
def setScriptMode (env : String) (st : PageState) : PageState :=
  { st with scriptsEnv := env }

/-- A `window.loadScript` call made on a page: the closure resolves relative
urls against the module-level `relativePathBase` constant captured at entry
evaluation (`src/entry.ts` line 63), not against the current
`window.SCRIPTS_ENV`. -/
def pageLoadScript (url : String) (opts : ScriptOptions) (st : PageState) :
    PageState × PromiseResult :=
  let r := loadScript st.capturedBase url opts st.loader
  ({ st with loader := r.1 }, r.2)

/-- C2 counterexample.  On a production hostname with initial mode `cdn`,
switching the mode to `local` and then loading the relative url `global.js`
attaches a script resolved against the production base captured at entry
evaluation, not against the local base the new mode selects: the claim that
the new base is used for every subsequent `loadScript` call is false. -/
theorem setScriptMode_not_immediate_cex :
    countScriptsFor
      (pageLoadScript "global.js" defaultScriptOptions
        (setScriptMode "local" (entryInit "www.wesleyschool.org" "cdn" ⟨[], 0, []⟩))).1.loader
      (LOCAL_SERVER ++ "global.js") = 0 ∧
    countScriptsFor
      (pageLoadScript "global.js" defaultScriptOptions
        (setScriptMode "local" (entryInit "www.wesleyschool.org" "cdn" ⟨[], 0, []⟩))).1.loader
      (getProductionBase "" ++ "global.js") = 1 ∧
    LOCAL_SERVER ++ "global.js" ≠ getProductionBase "" ++ "global.js" := by
  decide

/-- C2 as amended.  Switching the Environment Mode mutates only
`window.SCRIPTS_ENV`: the resolution base stays the one captured at entry
evaluation, every subsequent `loadScript` call behaves exactly as it would
have before the switch, and a resource already attached before the switch is
not reloaded or re-fetched (its load resolves immediately, leaving the
loader state untouched). -/
theorem setScriptMode_isolation (m url : String) (opts : ScriptOptions) (st : PageState)
    (hloaded : hasScriptFor st.loader (finalUrl st.capturedBase url) = true) :
    (setScriptMode m st).capturedBase = st.capturedBase ∧
    (pageLoadScript url opts (setScriptMode m st)).1.loader = st.loader ∧
    (pageLoadScript url opts (setScriptMode m st)).2 = PromiseResult.resolved ∧
    (∀ url2 opts2, (pageLoadScript url2 opts2 (setScriptMode m st)).1.loader
        = (pageLoadScript url2 opts2 st).1.loader ∧
      (pageLoadScript url2 opts2 (setScriptMode m st)).2
        = (pageLoadScript url2 opts2 st).2) := by
  refine ⟨rfl, ?_, ?_, fun url2 opts2 => ⟨rfl, rfl⟩⟩
  · unfold pageLoadScript setScriptMode loadScript
    simp only
    rw [hloaded]
    simp
  · unfold pageLoadScript setScriptMode loadScript
    simp only
    rw [hloaded]
    simp

theorem setScriptMode_isolation_witness :
    hasScriptFor (⟨[⟨"b/u.js", "body"⟩], 1, []⟩ : LoaderState) (finalUrl "b/" "u.js") = true ∧
    ((setScriptMode "local" ⟨"cdn", "b/", ⟨[⟨"b/u.js", "body"⟩], 1, []⟩⟩).capturedBase = "b/" ∧
     (pageLoadScript "u.js" defaultScriptOptions
        (setScriptMode "local" ⟨"cdn", "b/", ⟨[⟨"b/u.js", "body"⟩], 1, []⟩⟩)).1.loader
        = ⟨[⟨"b/u.js", "body"⟩], 1, []⟩ ∧
     (pageLoadScript "u.js" defaultScriptOptions
        (setScriptMode "local" ⟨"cdn", "b/", ⟨[⟨"b/u.js", "body"⟩], 1, []⟩⟩)).2
        = PromiseResult.resolved ∧
     (∀ url2 opts2,
       (pageLoadScript url2 opts2
          (setScriptMode "local" ⟨"cdn", "b/", ⟨[⟨"b/u.js", "body"⟩], 1, []⟩⟩)).1.loader
         = (pageLoadScript url2 opts2 ⟨"cdn", "b/", ⟨[⟨"b/u.js", "body"⟩], 1, []⟩⟩).1.loader ∧
       (pageLoadScript url2 opts2
          (setScriptMode "local" ⟨"cdn", "b/", ⟨[⟨"b/u.js", "body"⟩], 1, []⟩⟩)).2
         = (pageLoadScript url2 opts2 ⟨"cdn", "b/", ⟨[⟨"b/u.js", "body"⟩], 1, []⟩⟩).2)) :=
  ⟨by decide,
   setScriptMode_isolation "local" "u.js" defaultScriptOptions
     ⟨"cdn", "b/", ⟨[⟨"b/u.js", "body"⟩], 1, []⟩⟩ (by decide)⟩

/-! ## Conditional Bootstrap (`window.conditionalLoadScript`) -/

/-- Modelled from the spec: `window.conditionalLoadScript(selector, url)` is
declared in `src/types/global.d.ts` lines 69-74 and invoked in the page
bootstrap, but its implementation is not part of the source tree.  Spec
section 4.3: the document is queried once for the selector; with zero
matches the call is a no-op and no network request is issued; with at least
one match it delegates to the Resource Loader exactly once regardless of the
match count.  The query result is abstracted as the number of matching
elements. -/
def conditionalLoadScript (matchCount : Nat) (base url : String) (s : LoaderState) :
    LoaderState × Option PromiseResult :=
  if matchCount = 0 then (s, none)
  else
    let r := loadScript base url defaultScriptOptions s
    (r.1, some r.2)

/-- C3.  Conditional no-op: with zero matching elements the conditional load
entry point leaves the loader state untouched (no fetch, no element) and
performs no load; with at least one match it delegates to `loadScript`
exactly once, with the same outcome however many elements match. -/
theorem conditionalLoadScript_spec (base url : String) (s : LoaderState) :
    conditionalLoadScript 0 base url s = (s, none) ∧
    (conditionalLoadScript 0 base url s).1.fetches = s.fetches ∧
    (conditionalLoadScript 0 base url s).1.scripts = s.scripts ∧
    (∀ k, 0 < k → conditionalLoadScript k base url s
        = ((loadScript base url defaultScriptOptions s).1,
           some (loadScript base url defaultScriptOptions s).2)) := by
  refine ⟨rfl, rfl, rfl, fun k hk => ?_⟩
  unfold conditionalLoadScript
  rw [if_neg (Nat.pos_iff_ne_zero.mp hk)]

theorem conditionalLoadScript_spec_witness :
    (conditionalLoadScript 0 "b/" "u.js" ⟨[], 0, []⟩ = (⟨[], 0, []⟩, none) ∧
     (conditionalLoadScript 0 "b/" "u.js" ⟨[], 0, []⟩).1.fetches = (⟨[], 0, []⟩ : LoaderState).fetches ∧
     (conditionalLoadScript 0 "b/" "u.js" ⟨[], 0, []⟩).1.scripts = (⟨[], 0, []⟩ : LoaderState).scripts ∧
     (∀ k, 0 < k → conditionalLoadScript k "b/" "u.js" ⟨[], 0, []⟩
        = ((loadScript "b/" "u.js" defaultScriptOptions ⟨[], 0, []⟩).1,
           some (loadScript "b/" "u.js" defaultScriptOptions ⟨[], 0, []⟩).2))) ∧
    0 < 2 ∧
    conditionalLoadScript 2 "b/" "u.js" ⟨[], 0, []⟩
      = ((loadScript "b/" "u.js" defaultScriptOptions ⟨[], 0, []⟩).1,
         some (loadScript "b/" "u.js" defaultScriptOptions ⟨[], 0, []⟩).2) :=
  ⟨conditionalLoadScript_spec "b/" "u.js" ⟨[], 0, []⟩,
   by decide,
   (conditionalLoadScript_spec "b/" "u.js" ⟨[], 0, []⟩).2.2.2 2 (by decide)⟩

/-! ## Inline video players (`src/components/inline-vimeo-player.ts`,
`src/components/interview-slider-video.ts`)

Both controllers share the same click-commit logic: per-instance
`isClickPlaying` flags, a class-wide `currentlyPlaying` reference, and a
stored `pauseVideo` closure awaited across instances.  The state is modelled
per controller class over `n` instances; the suspension points of the
handler (each `await`) delimit the observable intermediate states. -/

/-- Values of the `data-play-state` attribute
(`inline-vimeo-player.ts` lines 14-18). -/
inductive PlayAttr where
  | stateNone : PlayAttr
  | hover : PlayAttr
  | playing : PlayAttr
  | paused : PlayAttr
  deriving DecidableEq, Repr

/-- The state of one controller class: the per-instance `isClickPlaying`
closure variables, the shared `currentlyPlaying` field, and each wrap
element's play-state attribute. -/
structure VideoSys (n : Nat) where
  isClickPlaying : Fin n → Bool
  currentlyPlaying : Option (Fin n)
  playState : Fin n → PlayAttr

/-- Observable asynchronous events of the click-commit protocol: a player
acknowledging `pause()`, an instance being marked the committed holder
(`isClickPlaying = true` / `currentlyPlaying = wrap`), and a player
acknowledging `play()`. -/
inductive PlayerEvent (n : Nat) where
  | pauseAck : Fin n → PlayerEvent n
  | markCommitted : Fin n → PlayerEvent n
  | playAck : Fin n → PlayerEvent n
  deriving DecidableEq, Repr

/-- The `pauseVideo` closure (`inline-vimeo-player.ts` lines 126-132): a
no-op unless the instance is click-playing; otherwise clears the flag and
the shared reference, sets the paused attribute, and awaits the player's
pause acknowledgement. -/
def pauseVideo {n : Nat} (i : Fin n) (s : VideoSys n) :
    VideoSys n × List (PlayerEvent n) :=
  if s.isClickPlaying i then
    ({ isClickPlaying := fun j => if j = i then false else s.isClickPlaying j,
       currentlyPlaying := none,
       playState := fun j => if j = i then PlayAttr.paused else s.playState j },
     [PlayerEvent.pauseAck i])
  else
    (s, [])

/-- The click handler (`inline-vimeo-player.ts` lines 164-191).  If the
clicked instance is already committed it pauses; otherwise any other
currently-playing instance is paused first — and that pause is awaited —
before the clicked instance is marked committed and its `play()` is
attempted (`playOk` is the success of the awaited play call; on failure the
catch block clears the commitment again).  Besides the final state and the
event order, the list of states at the suspension points of the handler is
returned, so that transient states are observable. -/
def clickCommit {n : Nat} (b : Fin n) (playOk : Bool) (s : VideoSys n) :
    VideoSys n × List (PlayerEvent n) × List (VideoSys n) :=
  if s.isClickPlaying b then
    let r := pauseVideo b s
    (r.1, r.2, [s, r.1])
  else
    let r1 :=
      match s.currentlyPlaying with
      | some a => if a ≠ b then pauseVideo a s else (s, [])
      | none => (s, [])
    let s2 : VideoSys n :=
      { isClickPlaying := fun j => if j = b then true else r1.1.isClickPlaying j,
        currentlyPlaying := some b,
        playState := fun j => if j = b then PlayAttr.playing else r1.1.playState j }
    if playOk then
      (s2, r1.2 ++ [PlayerEvent.markCommitted b, PlayerEvent.playAck b], [s, r1.1, s2])
    else
      let s3 : VideoSys n :=
        { isClickPlaying := fun j => if j = b then false else r1.1.isClickPlaying j,
          currentlyPlaying := none,
          playState := s2.playState }
      (s3, r1.2 ++ [PlayerEvent.markCommitted b], [s, r1.1, s2, s3])

/-- At most one instance of the controller class holds committed
(click-to-play-with-audio) state. -/
def atMostOneCommitted {n : Nat} (s : VideoSys n) : Prop :=
  ∀ i j : Fin n, s.isClickPlaying i = true → s.isClickPlaying j = true → i = j

/-- A concrete two-instance controller state in which instance 0 holds
committed playback. -/
def videoSysSample : VideoSys 2 :=
  { isClickPlaying := fun j => j == 0,
    currentlyPlaying := some 0,
    playState := fun _ => PlayAttr.playing }

/-- C4.  Mutual exclusion of committed playback: when instance `a` holds
committed state and instance `b`'s click-commit handler runs to completion,
`a` ends non-committed with its attribute set to paused, `a`'s pause
acknowledgement strictly precedes the marking of `b` as committed holder in
the event order, and every state at a suspension point of the handler has at
most one committed instance. -/
theorem clickCommit_mutual_exclusion {n : Nat} (a b : Fin n) (playOk : Bool)
    (s : VideoSys n) (hab : a ≠ b)
    (hA : s.isClickPlaying a = true)
    (hcur : s.currentlyPlaying = some a)
    (honly : ∀ j, s.isClickPlaying j = true → j = a) :
    (clickCommit b playOk s).1.isClickPlaying a = false ∧
    (clickCommit b playOk s).1.playState a = PlayAttr.paused ∧
    (clickCommit b playOk s).2.1.take 2
      = [PlayerEvent.pauseAck a, PlayerEvent.markCommitted b] ∧
    (∀ st ∈ (clickCommit b playOk s).2.2, atMostOneCommitted st) := by
  have hB : s.isClickPlaying b = false := by
    cases h : s.isClickPlaying b with
    | true => exact absurd (honly b h) (Ne.symm hab)
    | false => rfl
  have hpause : pauseVideo a s =
      ({ isClickPlaying := fun j => if j = a then false else s.isClickPlaying j,
         currentlyPlaying := none,
         playState := fun j => if j = a then PlayAttr.paused else s.playState j },
       [PlayerEvent.pauseAck a]) := by
    unfold pauseVideo
    rw [hA]
    simp
  have hnone : ∀ j, (if j = a then false else s.isClickPlaying j) = false := by
    intro j
    by_cases hj : j = a
    · simp [hj]
    · simp [hj]
      cases h : s.isClickPlaying j with
      | true => exact absurd (honly j h) hj
      | false => rfl
  unfold clickCommit
  rw [hB]
  simp only [Bool.false_eq_true, if_false, hcur]
  rw [if_pos hab, hpause]
  cases playOk with
  | true =>
    simp only [if_true]
    refine ⟨?_, ?_, ?_, ?_⟩
    · simp [if_neg hab]
    · simp [if_neg hab]
    · rfl
    · intro st hst
      simp only [List.mem_cons, List.not_mem_nil, or_false] at hst
      rcases hst with h1 | h2 | h3
      · intro i j hi hj
        rw [h1] at hi hj
        rw [honly i hi, honly j hj]
      · intro i j hi hj
        rw [h2] at hi hj
        simp only at hi
        exact absurd hi (by rw [hnone i]; simp)
      · intro i j hi hj
        rw [h3] at hi hj
        simp only at hi hj
        by_cases hib : i = b
        · by_cases hjb : j = b
          · rw [hib, hjb]
          · rw [if_neg hjb, hnone j] at hj
            exact absurd hj (by simp)
        · rw [if_neg hib, hnone i] at hi
          exact absurd hi (by simp)
  | false =>
    simp only [Bool.false_eq_true, if_false]
    refine ⟨?_, ?_, ?_, ?_⟩
    · simp [if_neg hab]
    · simp [if_neg hab]
    · rfl
    · intro st hst
      simp only [List.mem_cons, List.not_mem_nil, or_false] at hst
      rcases hst with h1 | h2 | h3 | h4
      · intro i j hi hj
        rw [h1] at hi hj
        rw [honly i hi, honly j hj]
      · intro i j hi hj
        rw [h2] at hi hj
        simp only at hi
        exact absurd hi (by rw [hnone i]; simp)
      · intro i j hi hj
        rw [h3] at hi hj
        simp only at hi hj
        by_cases hib : i = b
        · by_cases hjb : j = b
          · rw [hib, hjb]
          · rw [if_neg hjb, hnone j] at hj
            exact absurd hj (by simp)
        · rw [if_neg hib, hnone i] at hi
          exact absurd hi (by simp)
      · intro i j hi hj
        rw [h4] at hi hj
        simp only at hi
        by_cases hib : i = b
        · rw [if_pos hib] at hi
          exact absurd hi (by simp)
        · rw [if_neg hib, hnone i] at hi
          exact absurd hi (by simp)

theorem clickCommit_mutual_exclusion_witness :
    ((0 : Fin 2) ≠ (1 : Fin 2) ∧
     videoSysSample.isClickPlaying 0 = true ∧
     videoSysSample.currentlyPlaying = some 0 ∧
     (∀ j, videoSysSample.isClickPlaying j = true → j = 0)) ∧
    ((clickCommit 1 true videoSysSample).1.isClickPlaying 0 = false ∧
     (clickCommit 1 true videoSysSample).1.playState 0 = PlayAttr.paused ∧
     (clickCommit 1 true videoSysSample).2.1.take 2
       = [PlayerEvent.pauseAck 0, PlayerEvent.markCommitted 1] ∧
     (∀ st ∈ (clickCommit 1 true videoSysSample).2.2, atMostOneCommitted st)) :=
  ⟨⟨by decide, by decide, by decide, by decide⟩,
   clickCommit_mutual_exclusion 0 1 true videoSysSample
     (by decide) (by decide) (by decide) (by decide)⟩

/-! ## Story slider hand-off (`src/components/story-slider.ts`)

The file holds iterative variants of the `StorySlider` class.  Two of them
drive the hand-off between story containers through
`handoffToAdjacentStory`: the direction-aware variant branches on the
`dir` argument, the later variant computes the advance target only.  Story
containers (`.stories_item` elements) are modelled by identifiers; the
dialog found inside a container by `querySelector('dialog[data-dialog-id]')`
is given by `dialogOf`.  The result is the identifier of the dialog that
gets opened, or `none` when the code warns and returns. -/

/-- JS `Array.prototype.indexOf`: the index of the first occurrence, `-1`
when the element is absent. -/
def jsIndexOf (l : List Nat) (x : Nat) : Int :=
  match l.indexOf? x with
  | some i => (i : Int)
  | none => -1

/-- JS array subscript read: negative or out-of-range indices give
`undefined`. -/
def jsGet (l : List Nat) (i : Int) : Option Nat :=
  if 0 ≤ i then l.get? i.toNat else none

/-- The direction payload of the hand-off request. -/
inductive HandoffDir where
  | next : HandoffDir
  | prev : HandoffDir
  deriving DecidableEq, Repr

/-- The direction-aware `handoffToAdjacentStory` (second `StorySlider`
variant in `src/components/story-slider.ts`): on `next`, the last container
wraps to the first, otherwise the following container is taken; on `prev`,
the first container wraps to the last, otherwise the preceding one.  The
target container's dialog is then opened; a container without a dialog
aborts with a warning. -/
def handoffToAdjacentStory_directionAware (storyItemsList : List Nat)
    (dialogOf : Nat → Option Nat) (currentStoryItem : Nat) (dir : HandoffDir) :
    Option Nat :=
  let storyItemCount : Int := storyItemsList.length
  let currentStoryItemPos := jsIndexOf storyItemsList currentStoryItem
  let nextStoryItem : Option Nat :=
    match dir with
    | HandoffDir.next =>
      if currentStoryItemPos = storyItemCount - 1 then jsGet storyItemsList 0
      else jsGet storyItemsList (currentStoryItemPos + 1)
    | HandoffDir.prev =>
      if currentStoryItemPos = 0 then jsGet storyItemsList (storyItemCount - 1)
      else jsGet storyItemsList (currentStoryItemPos - 1)
  match nextStoryItem with
  | none => none
  | some item => dialogOf item

/-- The later `handoffToAdjacentStory` variant
(`src/components/story-slider.ts` lines 523-554): it receives the direction
but never branches on it — both directions compute the advance target
(last container wraps to the first, otherwise the following container). -/
def handoffToAdjacentStory_later (storyItemsList : List Nat)
    (dialogOf : Nat → Option Nat) (currentStoryItem : Nat) (_dir : HandoffDir) :
    Option Nat :=
  let storyItemCount : Int := storyItemsList.length
  let currentStoryItemPos := jsIndexOf storyItemsList currentStoryItem
  let nextStoryItem : Option Nat :=
    if currentStoryItemPos = storyItemCount - 1 then jsGet storyItemsList 0
    else jsGet storyItemsList (currentStoryItemPos + 1)
  match nextStoryItem with
  | none => none
  | some item => dialogOf item

/-- C5 counterexample.  With three containers `0, 1, 2` each holding its own
dialog, a retreat (`prev`) request from container 0 activates container 1
under the later `handoffToAdjacentStory` variant, not container `N - 1 = 2`
as the claim states. -/
theorem handoff_later_retreat_cex :
    handoffToAdjacentStory_later [0, 1, 2] some 0 HandoffDir.prev = some 1 ∧
    (some 1 : Option Nat) ≠ some 2 := by
  decide

/-- C5 as amended.  In the direction-aware variant, an advance request from
container `i` activates the dialog of container `(i+1) mod N` and a retreat
request from container 0 activates the dialog of container `N-1`, as the
claim states; the later variant instead activates the dialog of container
`(i+1) mod N` for both directions, so its retreat from container 0 reaches
container 1 rather than container `N-1` (whenever `N > 1`). -/
theorem handoff_wraparound (items : List Nat) (dialogOf : Nat → Option Nat)
    (cur : Nat) (i : Nat) (hi : i < items.length)
    (hfirst : jsIndexOf items cur = (i : Int)) :
    (handoffToAdjacentStory_directionAware items dialogOf cur HandoffDir.next
       = (jsGet items (((i + 1) % items.length : Nat) : Int)).bind dialogOf) ∧
    (i = 0 → handoffToAdjacentStory_directionAware items dialogOf cur HandoffDir.prev
       = (jsGet items ((items.length - 1 : Nat) : Int)).bind dialogOf) ∧
    (∀ dir, handoffToAdjacentStory_later items dialogOf cur dir
       = (jsGet items (((i + 1) % items.length : Nat) : Int)).bind dialogOf) := by
  have hnext : (if (i : Int) = (items.length : Int) - 1
      then jsGet items 0 else jsGet items ((i : Int) + 1))
      = jsGet items (((i + 1) % items.length : Nat) : Int) := by
    by_cases hlast : i = items.length - 1
    · rw [if_pos (by omega)]
      have : (i + 1) % items.length = 0 := by
        have : i + 1 = items.length := by omega
        rw [this, Nat.mod_self]
      rw [this]
      rfl
    · rw [if_neg (by omega)]
      have : (i + 1) % items.length = i + 1 := Nat.mod_eq_of_lt (by omega)
      rw [this]
      congr 1
  refine ⟨?_, ?_, ?_⟩
  · unfold handoffToAdjacentStory_directionAware
    rw [hfirst]
    simp only
    rw [hnext]
    cases jsGet items (((i + 1) % items.length : Nat) : Int) <;> rfl
  · intro hzero
    subst hzero
    unfold handoffToAdjacentStory_directionAware
    rw [hfirst]
    simp only [Nat.cast_zero, if_true]
    have h1 : ((items.length : Int) - 1) = ((items.length - 1 : Nat) : Int) := by omega
    rw [h1]
    cases jsGet items ((items.length - 1 : Nat) : Int) <;> rfl
  · intro dir
    unfold handoffToAdjacentStory_later
    rw [hfirst]
    simp only
    rw [hnext]
    cases jsGet items (((i + 1) % items.length : Nat) : Int) <;> rfl

theorem handoff_wraparound_witness :
    (0 < [5, 6, 7].length ∧ jsIndexOf [5, 6, 7] 5 = (0 : Int)) ∧
    ((handoffToAdjacentStory_directionAware [5, 6, 7] some 5 HandoffDir.next
        = (jsGet [5, 6, 7] (((0 + 1) % [5, 6, 7].length : Nat) : Int)).bind some) ∧
     (0 = 0 → handoffToAdjacentStory_directionAware [5, 6, 7] some 5 HandoffDir.prev
        = (jsGet [5, 6, 7] (([5, 6, 7].length - 1 : Nat) : Int)).bind some) ∧
     (∀ dir, handoffToAdjacentStory_later [5, 6, 7] some 5 dir
        = (jsGet [5, 6, 7] (((0 + 1) % [5, 6, 7].length : Nat) : Int)).bind some)) :=
  ⟨⟨by decide, by decide⟩,
   handoff_wraparound [5, 6, 7] some 5 0 (by decide) (by decide)⟩

/-! ## Dialog component (`src/components/dialog.ts`) -/

/-- A `dialog[data-dialog-id]` element as matched by the component selector:
only the attribute value matters to `Dialog.init`.  The selector guarantees
the attribute exists, but its value may still be the empty string, which is
falsy in the `if (!id)` check. -/
structure DialogEl where
  dialogId : String
  deriving DecidableEq, Repr

/-- What `Dialog.init` does with one element of the `dialogList` NodeList. -/
inductive InitDecision where
  | bound : InitDecision
  | missingId : InitDecision
  | duplicateSkipped : InitDecision
  deriving DecidableEq, Repr

/-- The `Dialog.init` loop (`src/components/dialog.ts` lines 22-60) over the
remaining dialog list, with `seen` the contents of the `initializedIds` set:
a falsy id logs an error and skips the element; an id already in the set
logs a warning and skips the element, binding no listeners; otherwise the id
joins the set and the element's open and close triggers are bound. -/
def dialogInitFrom (seen : List String) : List DialogEl → List (DialogEl × InitDecision)
  | [] => []
  | d :: rest =>
    if d.dialogId = "" then
      (d, InitDecision.missingId) :: dialogInitFrom seen rest
    else if d.dialogId ∈ seen then
      (d, InitDecision.duplicateSkipped) :: dialogInitFrom seen rest
    else
      (d, InitDecision.bound) :: dialogInitFrom (d.dialogId :: seen) rest

/-- `Dialog.init` over the document-order dialog list, starting from the
empty `initializedIds` set. -/
def dialogInit (dialogList : List DialogEl) : List (DialogEl × InitDecision) :=
  dialogInitFrom [] dialogList

theorem dialogInitFrom_getElem :
    ∀ (l : List DialogEl) (seen : List String) (k : Nat) (d : DialogEl),
      l[k]? = some d →
      (dialogInitFrom seen l)[k]? = some (d,
        if d.dialogId = "" then InitDecision.missingId
        else if d.dialogId ∈ seen ∨ ∃ e ∈ l.take k, e.dialogId = d.dialogId
          then InitDecision.duplicateSkipped
        else InitDecision.bound)
  | [], _, k, d => by simp
  | e :: rest, seen, 0, d => by
    intro h
    simp only [List.getElem?_cons_zero, Option.some.injEq] at h
    subst h
    unfold dialogInitFrom
    by_cases h1 : e.dialogId = ""
    · simp [h1]
    · by_cases h2 : e.dialogId ∈ seen
      · simp [h1, h2]
      · simp [h1, h2]
  | e :: rest, seen, k + 1, d => by
    intro h
    simp only [List.getElem?_cons_succ] at h
    unfold dialogInitFrom
    by_cases hd0 : d.dialogId = ""
    · by_cases h1 : e.dialogId = ""
      · rw [if_pos h1]
        simp only [List.getElem?_cons_succ]
        rw [dialogInitFrom_getElem rest seen k d h]
        simp [hd0]
      · rw [if_neg h1]
        by_cases h2 : e.dialogId ∈ seen
        · rw [if_pos h2]
          simp only [List.getElem?_cons_succ]
          rw [dialogInitFrom_getElem rest seen k d h]
          simp [hd0]
        · rw [if_neg h2]
          simp only [List.getElem?_cons_succ]
          rw [dialogInitFrom_getElem rest (e.dialogId :: seen) k d h]
          simp [hd0]
    · have htake : (e :: rest).take (k + 1) = e :: rest.take k := rfl
      by_cases h1 : e.dialogId = ""
      · rw [if_pos h1]
        simp only [List.getElem?_cons_succ]
        rw [dialogInitFrom_getElem rest seen k d h]
        have hcond : (d.dialogId ∈ seen ∨ ∃ x ∈ rest.take k, x.dialogId = d.dialogId)
            ↔ (d.dialogId ∈ seen ∨ ∃ x ∈ (e :: rest).take (k + 1), x.dialogId = d.dialogId) := by
          rw [htake]
          simp only [List.mem_cons]
          constructor
          · rintro (hs | ⟨x, hx, hxe⟩)
            · exact Or.inl hs
            · exact Or.inr ⟨x, Or.inr hx, hxe⟩
          · rintro (hs | ⟨x, hx, hxe⟩)
            · exact Or.inl hs
            · rcases hx with hxe2 | hx
              · subst hxe2
                rw [h1] at hxe
                exact absurd hxe.symm hd0
              · exact Or.inr ⟨x, hx, hxe⟩
        rw [if_neg hd0, if_neg hd0, if_congr hcond rfl rfl]
      · rw [if_neg h1]
        by_cases h2 : e.dialogId ∈ seen
        · rw [if_pos h2]
          simp only [List.getElem?_cons_succ]
          rw [dialogInitFrom_getElem rest seen k d h]
          have hcond : (d.dialogId ∈ seen ∨ ∃ x ∈ rest.take k, x.dialogId = d.dialogId)
              ↔ (d.dialogId ∈ seen ∨ ∃ x ∈ (e :: rest).take (k + 1), x.dialogId = d.dialogId) := by
            rw [htake]
            simp only [List.mem_cons]
            constructor
            · rintro (hs | ⟨x, hx, hxe⟩)
              · exact Or.inl hs
              · exact Or.inr ⟨x, Or.inr hx, hxe⟩
            · rintro (hs | ⟨x, hx, hxe⟩)
              · exact Or.inl hs
              · rcases hx with hxe2 | hx
                · subst hxe2
                  rw [← hxe]
                  exact Or.inl h2
                · exact Or.inr ⟨x, hx, hxe⟩
          rw [if_neg hd0, if_neg hd0, if_congr hcond rfl rfl]
        · rw [if_neg h2]
          simp only [List.getElem?_cons_succ]
          rw [dialogInitFrom_getElem rest (e.dialogId :: seen) k d h]
          have hcond : (d.dialogId ∈ e.dialogId :: seen ∨ ∃ x ∈ rest.take k, x.dialogId = d.dialogId)
              ↔ (d.dialogId ∈ seen ∨ ∃ x ∈ (e :: rest).take (k + 1), x.dialogId = d.dialogId) := by
            rw [htake]
            simp only [List.mem_cons]
            constructor
            · rintro ((hde | hs) | ⟨x, hx, hxe⟩)
              · exact Or.inr ⟨e, Or.inl rfl, hde.symm⟩
              · exact Or.inl hs
              · exact Or.inr ⟨x, Or.inr hx, hxe⟩
            · rintro (hs | ⟨x, hx, hxe⟩)
              · exact Or.inl (Or.inr hs)
              · rcases hx with hxe2 | hx
                · subst hxe2
                  exact Or.inl (Or.inl hxe.symm)
                · exact Or.inr ⟨x, hx, hxe⟩
          rw [if_neg hd0, if_neg hd0, if_congr hcond rfl rfl]

theorem mem_take_exists {α : Type} (l : List α) (k : Nat) (e : α)
    (h : e ∈ l.take k) : ∃ m, m < k ∧ l[m]? = some e := by
  obtain ⟨m, hm, hget⟩ := List.mem_iff_getElem.mp h
  have hmk : m < k := by
    have := hm
    rw [List.length_take] at this
    omega
  refine ⟨m, hmk, ?_⟩
  rw [← List.getElem?_take_of_lt hmk, List.getElem?_eq_getElem hm, hget]

theorem exists_mem_take {α : Type} (l : List α) (k m : Nat) (e : α)
    (hm : m < k) (h : l[m]? = some e) : e ∈ l.take k := by
  have : (l.take k)[m]? = some e := by
    rw [List.getElem?_take_of_lt hm]
    exact h
  exact List.getElem?_mem this

/-- C7.  Duplicate dialog identifier: for a nonempty id value `v` occurring
at a first position `k` and again at a later position `j` of the
document-order dialog list, `Dialog.init` binds the dialog at `k`, skips the
dialog at `j` with a warning and binds it no listeners, and still binds
every dialog that is the first occurrence of its own (nonempty) id. -/
theorem dialog_duplicate_first_wins (l : List DialogEl) (v : String) (hv : v ≠ "")
    (k j : Nat) (hkj : k < j)
    (dk dj : DialogEl) (hdk : l[k]? = some dk) (hdj : l[j]? = some dj)
    (hkid : dk.dialogId = v) (hjid : dj.dialogId = v)
    (hfirst : ∀ m, m < k → ∀ e : DialogEl, l[m]? = some e → e.dialogId ≠ v) :
    (dialogInit l)[k]? = some (dk, InitDecision.bound) ∧
    (dialogInit l)[j]? = some (dj, InitDecision.duplicateSkipped) ∧
    (∀ (m : Nat) (e : DialogEl), l[m]? = some e → e.dialogId ≠ "" →
      (∀ p, p < m → ∀ e2 : DialogEl, l[p]? = some e2 → e2.dialogId ≠ e.dialogId) →
      (dialogInit l)[m]? = some (e, InitDecision.bound)) := by
  refine ⟨?_, ?_, ?_⟩
  · have hcond : ¬ (dk.dialogId ∈ ([] : List String)
        ∨ ∃ e ∈ l.take k, e.dialogId = dk.dialogId) := by
      rintro (hmem | ⟨e, he, hev⟩)
      · exact absurd hmem (List.not_mem_nil _)
      · obtain ⟨m, hm, hml⟩ := mem_take_exists l k e he
        exact hfirst m hm e hml (by rw [hev, hkid])
    rw [dialogInit, dialogInitFrom_getElem l [] k dk hdk,
      if_neg (by rw [hkid]; exact hv), if_neg hcond]
  · have hcond : dj.dialogId ∈ ([] : List String)
        ∨ ∃ e ∈ l.take j, e.dialogId = dj.dialogId :=
      Or.inr ⟨dk, exists_mem_take l j k dk hkj hdk, by rw [hkid, hjid]⟩
    rw [dialogInit, dialogInitFrom_getElem l [] j dj hdj,
      if_neg (by rw [hjid]; exact hv), if_pos hcond]
  · intro m e hme he0 hfirstm
    have hcond : ¬ (e.dialogId ∈ ([] : List String)
        ∨ ∃ e2 ∈ l.take m, e2.dialogId = e.dialogId) := by
      rintro (hmem | ⟨e2, he2, hev⟩)
      · exact absurd hmem (List.not_mem_nil _)
      · obtain ⟨p, hp, hpl⟩ := mem_take_exists l m e2 he2
        exact hfirstm p hp e2 hpl hev
    rw [dialogInit, dialogInitFrom_getElem l [] m e hme, if_neg he0, if_neg hcond]

theorem dialog_duplicate_first_wins_witness :
    (("5" : String) ≠ "" ∧ 0 < 1 ∧
     ([⟨"5"⟩, ⟨"5"⟩, ⟨"7"⟩] : List DialogEl)[0]? = some ⟨"5"⟩ ∧
     ([⟨"5"⟩, ⟨"5"⟩, ⟨"7"⟩] : List DialogEl)[1]? = some ⟨"5"⟩ ∧
     (∀ m, m < 0 → ∀ e : DialogEl,
       ([⟨"5"⟩, ⟨"5"⟩, ⟨"7"⟩] : List DialogEl)[m]? = some e → e.dialogId ≠ "5")) ∧
    ((dialogInit [⟨"5"⟩, ⟨"5"⟩, ⟨"7"⟩])[0]? = some (⟨"5"⟩, InitDecision.bound) ∧
     (dialogInit [⟨"5"⟩, ⟨"5"⟩, ⟨"7"⟩])[1]? = some (⟨"5"⟩, InitDecision.duplicateSkipped) ∧
     (∀ (m : Nat) (e : DialogEl),
       ([⟨"5"⟩, ⟨"5"⟩, ⟨"7"⟩] : List DialogEl)[m]? = some e → e.dialogId ≠ "" →
       (∀ p, p < m → ∀ e2 : DialogEl,
         ([⟨"5"⟩, ⟨"5"⟩, ⟨"7"⟩] : List DialogEl)[p]? = some e2 →
           e2.dialogId ≠ e.dialogId) →
       (dialogInit [⟨"5"⟩, ⟨"5"⟩, ⟨"7"⟩])[m]? = some (e, InitDecision.bound))) :=
  ⟨⟨by decide, by decide, by decide, by decide,
    fun m hm => absurd hm (Nat.not_lt_zero m)⟩,
   dialog_duplicate_first_wins [⟨"5"⟩, ⟨"5"⟩, ⟨"7"⟩] "5" (by decide) 0 1 (by decide)
     ⟨"5"⟩ ⟨"5"⟩ (by decide) (by decide) (by decide) (by decide)
     (fun m hm => absurd hm (Nat.not_lt_zero m))⟩

/-! ## Slider configuration attributes (`src/components/slider.ts` lines
70-107 and `GSAPDragSlider.setupAutoplay`)

The attribute strings are parsed with the JS `Number.parseInt(·, 10)` and
`Number.parseFloat` semantics, modelled on character lists: leading
whitespace is skipped, an optional sign is read, and the longest valid
numeric prefix counts; no digit at all gives `NaN`.  Every computation is a
total function, so no configuration read can throw or leave an option
undefined. -/

/-- Numeric value of a decimal digit list, most significant digit first. -/
def digitsToNat (ds : List Char) : Nat :=
  ds.foldl (fun a c => a * 10 + (c.toNat - 48)) 0

/-- Longest decimal digit prefix, `none` when it is empty. -/
def parseDigits (cs : List Char) : Option Nat :=
  let ds := cs.takeWhile Char.isDigit
  if ds.isEmpty then none else some (digitsToNat ds)

/-- JS `Number.parseInt(s, 10)`: skip leading whitespace, optional sign,
longest digit prefix; `NaN` is `none`. -/
def jsParseInt (s : String) : Option Int :=
  match s.data.dropWhile Char.isWhitespace with
  | '-' :: rest => (parseDigits rest).map (fun n => -(n : Int))
  | '+' :: rest => (parseDigits rest).map (fun n => (n : Int))
  | rest => (parseDigits rest).map (fun n => (n : Int))

/-- A JS number as produced by `parseFloat`: `NaN`, an infinity, or a finite
value (decimal literals are exact here, which is all the fallback logic
observes). -/
inductive JSNum where
  | nan : JSNum
  | posInf : JSNum
  | negInf : JSNum
  | val : ℚ → JSNum
  deriving DecidableEq, Repr

/-- Ten to an integer power, as a rational. -/
def ratPow10 (e : Int) : ℚ :=
  if 0 ≤ e then ((10 : ℚ) ^ e.toNat) else 1 / ((10 : ℚ) ^ (-e).toNat)

/-- The optional exponent part following a decimal literal: `e`/`E`, an
optional sign, and the digit prefix; a malformed exponent contributes
nothing, as in JS where `parseFloat('1e') = 1`. -/
def parseExponent (cs : List Char) : Int :=
  match cs with
  | 'e' :: rest => parseExponentTail rest
  | 'E' :: rest => parseExponentTail rest
  | _ => 0
where
  parseExponentTail : List Char → Int
  | '-' :: ds => match parseDigits ds with
    | some n => -(n : Int)
    | none => 0
  | '+' :: ds => match parseDigits ds with
    | some n => (n : Int)
    | none => 0
  | ds => match parseDigits ds with
    | some n => (n : Int)
    | none => 0

/-- Value of a fraction digit list (the part after the decimal point). -/
def fracValue (ds : List Char) : ℚ :=
  (digitsToNat ds : ℚ) / ((10 : ℚ) ^ ds.length)

/-- The unsigned magnitude of a JS `parseFloat` literal: digits, an optional
point with further digits, and an optional exponent; a string starting with
neither a digit nor a point-and-digit is `NaN`. -/
def parseFloatMag (cs : List Char) : JSNum :=
  let intPart := cs.takeWhile Char.isDigit
  let rest1 := cs.dropWhile Char.isDigit
  if intPart.isEmpty then
    match rest1 with
    | '.' :: rest2 =>
      let frac := rest2.takeWhile Char.isDigit
      let rest3 := rest2.dropWhile Char.isDigit
      if frac.isEmpty then JSNum.nan
      else JSNum.val (fracValue frac * ratPow10 (parseExponent rest3))
    | _ => JSNum.nan
  else
    match rest1 with
    | '.' :: rest2 =>
      let frac := rest2.takeWhile Char.isDigit
      let rest3 := rest2.dropWhile Char.isDigit
      JSNum.val (((digitsToNat intPart : ℚ) + fracValue frac) * ratPow10 (parseExponent rest3))
    | _ => JSNum.val ((digitsToNat intPart : ℚ) * ratPow10 (parseExponent rest1))

/-- JS `Number.parseFloat`: leading whitespace, optional sign, then either
the literal `Infinity` or a decimal magnitude. -/
def jsParseFloat (s : String) : JSNum :=
  match s.data.dropWhile Char.isWhitespace with
  | '-' :: rest =>
    if "Infinity".data.isPrefixOf rest then JSNum.negInf
    else match parseFloatMag rest with
      | JSNum.val q => JSNum.val (-q)
      | other => other
  | '+' :: rest =>
    if "Infinity".data.isPrefixOf rest then JSNum.posInf
    else parseFloatMag rest
  | rest =>
    if "Infinity".data.isPrefixOf rest then JSNum.posInf
    else parseFloatMag rest

/-- JS `s.trim().toLowerCase()` on the character list. -/
def jsTrimToLower (s : String) : List Char :=
  (((s.data.dropWhile Char.isWhitespace).reverse.dropWhile Char.isWhitespace).reverse).map
    Char.toLower

/-- The `spaceBetween` option (`src/components/slider.ts` lines 71-76): a
missing wrapper attribute parses to `NaN`, and `NaN` falls back to 32. -/
def computeSpaceBetween (spaceBetweenAttr : Option String) : Int :=
  let parsedSpaceBetween : Option Int :=
    match spaceBetweenAttr with
    | some s => jsParseInt s
    | none => none
  match parsedSpaceBetween with
  | none => 32
  | some n => n

/-- The value passed for `slidesPerView`: `auto` or a parsed number. -/
inductive SlidesPerViewOpt where
  | auto : SlidesPerViewOpt
  | num : JSNum → SlidesPerViewOpt
  deriving DecidableEq, Repr

/-- The `slidesPerView` option (`src/components/slider.ts` lines 79-83 and
112-114): a falsy or `auto` attribute selects `'auto'`; otherwise the value
is `parseFloat` of the attribute, and the `Number.isNaN` guard in the config
turns `NaN` back into `'auto'`. -/
def computeSlidesPerView (slidesPerViewAttr : Option String) : SlidesPerViewOpt :=
  match slidesPerViewAttr with
  | none => SlidesPerViewOpt.auto
  | some s =>
    if s = "" then SlidesPerViewOpt.auto
    else if jsTrimToLower s = "auto".data then SlidesPerViewOpt.auto
    else match jsParseFloat s with
      | JSNum.nan => SlidesPerViewOpt.auto
      | v => SlidesPerViewOpt.num v

/-- The `centeredSlides` option (`src/components/slider.ts` lines 86-95):
default `true`; a recognised false token switches it off, a recognised true
token (or the empty value) keeps it on, anything else leaves the default. -/
def computeCenteredSlides (centeredSlidesAttr : Option String) : Bool :=
  match centeredSlidesAttr with
  | none => true
  | some s =>
    let v := jsTrimToLower s
    if v = "false".data ∨ v = "0".data ∨ v = "no".data ∨ v = "off".data then false
    else if v = "true".data ∨ v = "1".data ∨ v = "yes".data ∨ v = "on".data ∨ v = [] then true
    else true

/-- The `loop` option (`src/components/slider.ts` lines 98-107): same token
logic as `centeredSlides`, default `true`. -/
def computeLoop (loopAttr : Option String) : Bool :=
  match loopAttr with
  | none => true
  | some s =>
    let v := jsTrimToLower s
    if v = "false".data ∨ v = "0".data ∨ v = "no".data ∨ v = "off".data then false
    else if v = "true".data ∨ v = "1".data ∨ v = "yes".data ∨ v = "on".data ∨ v = [] then true
    else true

/-- The autoplay interval of `GSAPDragSlider.setupAutoplay`: the timer
attribute only overrides the 6000 ms default when present, truthy, parseable
and strictly positive. -/
def computeAutoplayIntervalMs (timerAttr : Option String) : Int :=
  match timerAttr with
  | none => 6000
  | some t =>
    if t = "" then 6000
    else match jsParseInt t with
      | none => 6000
      | some n => if 0 < n then n else 6000

/-- C8.  Invalid attribute fallback: for every configuration attribute read
by the slider controllers, an absent or unparseable value falls back to the
documented default — `spaceBetween` 32, `slidesPerView` `'auto'`,
`centeredSlides` `true`, `loop` `true`, autoplay interval 6000 ms (also for
non-positive timers).  All computations are total functions of the
attribute, so no value can throw or leave an option undefined. -/
theorem slider_attr_fallback :
    (computeSpaceBetween none = 32 ∧
     ∀ s, jsParseInt s = none → computeSpaceBetween (some s) = 32) ∧
    (computeSlidesPerView none = SlidesPerViewOpt.auto ∧
     ∀ s, jsParseFloat s = JSNum.nan → computeSlidesPerView (some s) = SlidesPerViewOpt.auto) ∧
    (computeCenteredSlides none = true ∧
     ∀ s, ¬ (jsTrimToLower s = "false".data ∨ jsTrimToLower s = "0".data ∨
             jsTrimToLower s = "no".data ∨ jsTrimToLower s = "off".data) →
       computeCenteredSlides (some s) = true) ∧
    (computeLoop none = true ∧
     ∀ s, ¬ (jsTrimToLower s = "false".data ∨ jsTrimToLower s = "0".data ∨
             jsTrimToLower s = "no".data ∨ jsTrimToLower s = "off".data) →
       computeLoop (some s) = true) ∧
    (computeAutoplayIntervalMs none = 6000 ∧
     (∀ t, jsParseInt t = none → computeAutoplayIntervalMs (some t) = 6000) ∧
     (∀ t n, jsParseInt t = some n → n ≤ 0 → computeAutoplayIntervalMs (some t) = 6000)) := by
  refine ⟨⟨rfl, ?_⟩, ⟨rfl, ?_⟩, ⟨rfl, ?_⟩, ⟨rfl, ?_⟩, ⟨rfl, ?_, ?_⟩⟩
  · intro s h
    unfold computeSpaceBetween
    dsimp only
    rw [h]
  · intro s h
    unfold computeSlidesPerView
    dsimp only
    by_cases h0 : s = ""
    · rw [if_pos h0]
    · rw [if_neg h0]
      by_cases h1 : jsTrimToLower s = "auto".data
      · rw [if_pos h1]
      · rw [if_neg h1, h]
  · intro s h
    unfold computeCenteredSlides
    dsimp only
    simp only [if_neg h]
    by_cases h2 : jsTrimToLower s = "true".data ∨ jsTrimToLower s = "1".data ∨
        jsTrimToLower s = "yes".data ∨ jsTrimToLower s = "on".data ∨ jsTrimToLower s = []
    · rw [if_pos h2]
    · rw [if_neg h2]
  · intro s h
    unfold computeLoop
    dsimp only
    simp only [if_neg h]
    by_cases h2 : jsTrimToLower s = "true".data ∨ jsTrimToLower s = "1".data ∨
        jsTrimToLower s = "yes".data ∨ jsTrimToLower s = "on".data ∨ jsTrimToLower s = []
    · rw [if_pos h2]
    · rw [if_neg h2]
  · intro t h
    unfold computeAutoplayIntervalMs
    dsimp only
    by_cases h0 : t = ""
    · rw [if_pos h0]
    · rw [if_neg h0, h]
  · intro t n h hn
    unfold computeAutoplayIntervalMs
    dsimp only
    by_cases h0 : t = ""
    · rw [if_pos h0]
    · rw [if_neg h0, h]
      simp only
      rw [if_neg (by omega)]

theorem slider_attr_fallback_witness :
    jsParseInt "n/a" = none ∧
    jsParseFloat "n/a" = JSNum.nan ∧
    ¬ (jsTrimToLower "maybe" = "false".data ∨ jsTrimToLower "maybe" = "0".data ∨
       jsTrimToLower "maybe" = "no".data ∨ jsTrimToLower "maybe" = "off".data) ∧
    jsParseInt "-250" = some (-250) ∧ (-250 : Int) ≤ 0 ∧
    computeSpaceBetween (some "n/a") = 32 ∧
    computeSlidesPerView (some "n/a") = SlidesPerViewOpt.auto ∧
    computeCenteredSlides (some "maybe") = true ∧
    computeLoop (some "maybe") = true ∧
    computeAutoplayIntervalMs (some "n/a") = 6000 ∧
    computeAutoplayIntervalMs (some "-250") = 6000 :=
  ⟨by decide, by decide, by decide, by decide, by decide,
   slider_attr_fallback.1.2 "n/a" (by decide),
   slider_attr_fallback.2.1.2 "n/a" (by decide),
   slider_attr_fallback.2.2.1.2 "maybe" (by decide),
   slider_attr_fallback.2.2.2.1.2 "maybe" (by decide),
   slider_attr_fallback.2.2.2.2.2.1 "n/a" (by decide),
   slider_attr_fallback.2.2.2.2.2.2 "-250" (-250) (by decide) (by decide)⟩

/-! ## A DOM fragment model

Element trees for the marquee duplication pass and the slider scoping scan.
Each element carries an identity (modelling JS object identity), the list of
selector tokens it matches (attribute selectors such as
`data-el=marquee-list` are carried verbatim), and its child list.  Document
order is preorder. -/

/-- A DOM element: identity, matched selector tokens, children. -/
inductive DomNode where
  | el : Nat → List String → List DomNode → DomNode
  deriving Repr

/-- The identity of an element. -/
def nodeId : DomNode → Nat
  | .el i _ _ => i

/-- Whether the element matches a selector token. -/
def matchesSel (sel : String) : DomNode → Bool
  | .el _ attrs _ => attrs.contains sel

/-- The selector of `duplicateMarqueeList`
(`src/utils/marquee-list.ts` line 6). -/
def marqueeSel : String := "data-el=marquee-list"

mutual
/-- All ids of a subtree, in document (preorder) order. -/
def idsN : DomNode → List Nat
  | .el i _ cs => i :: idsL cs
/-- All ids of a forest, in document order. -/
def idsL : List DomNode → List Nat
  | [] => []
  | c :: cs => idsN c ++ idsL cs
end

mutual
/-- The `document.querySelectorAll('[data-el="marquee-list"]')` matches
inside a subtree (the element itself included), in document order. -/
def marqueesN : DomNode → List DomNode
  | .el i a cs =>
    (if matchesSel marqueeSel (.el i a cs) then [DomNode.el i a cs] else []) ++ marqueesL cs
/-- The marquee matches of a forest, in document order: the static NodeList
snapshot the pass iterates over. -/
def marqueesL : List DomNode → List DomNode
  | [] => []
  | c :: cs => marqueesN c ++ marqueesL cs
end

mutual
/-- `cloneNode(true)`: a deep copy.  The copy is a distinct object; identity
is modelled by shifting every id by `b`, a bound above all ids of the
document. -/
def shiftN (b : Nat) : DomNode → DomNode
  | .el i a cs => .el (i + b) a (shiftL b cs)
/-- Deep copy of a forest. -/
def shiftL (b : Nat) : List DomNode → List DomNode
  | [] => []
  | c :: cs => shiftN b c :: shiftL b cs
end

mutual
/-- One loop iteration of `duplicateMarqueeList`
(`src/utils/marquee-list.ts` lines 8-14) inside one element:
`parentNode.insertBefore(clone, marqueeList.nextSibling)` for the element
whose identity is `k`. -/
def insertCloneAfterN (b k : Nat) : DomNode → DomNode
  | .el i a cs => .el i a (insertCloneAfterL b k cs)
/-- The same iteration at forest level: when the head is the target, its
fresh deep copy is inserted as the immediate next sibling. -/
def insertCloneAfterL (b k : Nat) : List DomNode → List DomNode
  | [] => []
  | c :: cs =>
    if nodeId c = k then c :: shiftN b c :: insertCloneAfterL b k cs
    else insertCloneAfterN b k c :: insertCloneAfterL b k cs
end

/-- `duplicateMarqueeList` (`src/utils/marquee-list.ts` lines 5-15): the
static NodeList snapshot is taken once, before any mutation, and the pass
inserts one clone per snapshot element, processing the snapshot in document
order. -/
def duplicateMarqueeList (b : Nat) (doc : List DomNode) : List DomNode :=
  (marqueesL doc).foldl (fun d m => insertCloneAfterL b (nodeId m) d) doc

mutual
/-- The intended net effect of one pass on a subtree: every marquee child
gets a deep copy of its pre-pass subtree as its immediate next sibling. -/
def dupN (b : Nat) : DomNode → DomNode
  | .el i a cs => .el i a (dupL b cs)
/-- The intended net effect of one pass on a forest. -/
def dupL (b : Nat) : List DomNode → List DomNode
  | [] => []
  | c :: cs =>
    if matchesSel marqueeSel c then dupN b c :: shiftN b c :: dupL b cs
    else dupN b c :: dupL b cs
end

mutual
/-- The `nextSibling` of the element with identity `k`, searching a
subtree. -/
def nextSibN (k : Nat) : DomNode → Option DomNode
  | .el _ _ cs => nextSibL k cs
/-- The `nextSibling` of the element with identity `k`, searching a
forest. -/
def nextSibL (k : Nat) : List DomNode → Option DomNode
  | [] => none
  | c :: cs =>
    if nodeId c = k then cs.head?
    else match nextSibN k c with
      | some x => some x
      | none => nextSibL k cs
end

theorem nodeId_mem_idsN (n : DomNode) : nodeId n ∈ idsN n := by
  cases n with
  | el i a cs => simp [nodeId, idsN]

mutual
theorem ids_shiftN (b : Nat) : ∀ n : DomNode, idsN (shiftN b n) = (idsN n).map (· + b)
  | .el i a cs => by
    simp [shiftN, idsN, ids_shiftL b cs]
theorem ids_shiftL (b : Nat) : ∀ l : List DomNode, idsL (shiftL b l) = (idsL l).map (· + b)
  | [] => by simp [shiftL, idsL]
  | c :: cs => by
    simp [shiftL, idsL, ids_shiftN b c, ids_shiftL b cs]
end

mutual
theorem insert_noop_N (b k : Nat) : ∀ n : DomNode, k ∉ idsN n → insertCloneAfterN b k n = n
  | .el i a cs => by
    intro h
    simp only [idsN, List.mem_cons, not_or] at h
    simp [insertCloneAfterN, insert_noop_L b k cs h.2]
theorem insert_noop_L (b k : Nat) : ∀ l : List DomNode, k ∉ idsL l → insertCloneAfterL b k l = l
  | [] => by intro h; rfl
  | c :: cs => by
    intro h
    simp only [idsL, List.mem_append, not_or] at h
    have hck : nodeId c ≠ k := by
      intro hk
      exact h.1 (hk ▸ nodeId_mem_idsN c)
    simp [insertCloneAfterL, hck, insert_noop_N b k c h.1, insert_noop_L b k cs h.2]
end

theorem insert_append (b k : Nat) (l1 l2 : List DomNode) :
    insertCloneAfterL b k (l1 ++ l2)
      = insertCloneAfterL b k l1 ++ insertCloneAfterL b k l2 := by
  induction l1 with
  | nil => rfl
  | cons c cs ih =>
    by_cases hc : nodeId c = k
    · simp [insertCloneAfterL, hc, ih]
    · simp [insertCloneAfterL, hc, ih]

mutual
theorem marquee_mem_ids_N : ∀ (n : DomNode) (m : DomNode), m ∈ marqueesN n → nodeId m ∈ idsN n
  | .el i a cs => by
    intro m hm
    simp only [marqueesN] at hm
    rw [List.mem_append] at hm
    rcases hm with hm | hm
    · by_cases hq : matchesSel marqueeSel (DomNode.el i a cs)
      · rw [if_pos hq] at hm
        simp only [List.mem_singleton] at hm
        subst hm
        exact nodeId_mem_idsN _
      · rw [if_neg hq] at hm
        exact absurd hm (List.not_mem_nil m)
    · have := marquee_mem_ids_L cs m hm
      simp [idsN]
      right
      exact this
theorem marquee_mem_ids_L : ∀ (l : List DomNode) (m : DomNode), m ∈ marqueesL l → nodeId m ∈ idsL l
  | [], m => by intro hm; exact absurd hm (List.not_mem_nil m)
  | c :: cs, m => by
    intro hm
    simp only [marqueesL, List.mem_append] at hm
    simp only [idsL, List.mem_append]
    rcases hm with hm | hm
    · exact Or.inl (marquee_mem_ids_N c m hm)
    · exact Or.inr (marquee_mem_ids_L cs m hm)
end

mutual
theorem ids_dupN (b : Nat) : ∀ (n : DomNode) (x : Nat), x ∈ idsN (dupN b n) →
    x ∈ idsN n ∨ ∃ y ∈ idsN n, x = y + b
  | .el i a cs => by
    intro x hx
    simp only [dupN, idsN, List.mem_cons] at hx
    rcases hx with hx | hx
    · exact Or.inl (by simp [idsN, hx])
    · rcases ids_dupL b cs x hx with h | ⟨y, hy, hxy⟩
      · exact Or.inl (by simp [idsN]; right; exact h)
      · exact Or.inr ⟨y, by simp [idsN]; right; exact hy, hxy⟩
theorem ids_dupL (b : Nat) : ∀ (l : List DomNode) (x : Nat), x ∈ idsL (dupL b l) →
    x ∈ idsL l ∨ ∃ y ∈ idsL l, x = y + b
  | [], x => by intro hx; exact absurd hx (List.not_mem_nil x)
  | c :: cs, x => by
    intro hx
    simp only [dupL] at hx
    by_cases hq : matchesSel marqueeSel c
    · rw [if_pos hq] at hx
      simp only [idsL, List.mem_append, List.mem_cons] at hx ⊢
      rcases hx with hx | hx | hx
      · rcases ids_dupN b c x hx with h | ⟨y, hy, hxy⟩
        · exact Or.inl (Or.inl h)
        · exact Or.inr ⟨y, Or.inl hy, hxy⟩
      · rw [ids_shiftN b c, List.mem_map] at hx
        obtain ⟨y, hy, hxy⟩ := hx
        exact Or.inr ⟨y, Or.inl hy, hxy.symm⟩
      · rcases ids_dupL b cs x hx with h | ⟨y, hy, hxy⟩
        · exact Or.inl (Or.inr h)
        · exact Or.inr ⟨y, Or.inr hy, hxy⟩
    · rw [if_neg hq] at hx
      simp only [idsL, List.mem_append] at hx ⊢
      rcases hx with hx | hx
      · rcases ids_dupN b c x hx with h | ⟨y, hy, hxy⟩
        · exact Or.inl (Or.inl h)
        · exact Or.inr ⟨y, Or.inl hy, hxy⟩
      · rcases ids_dupL b cs x hx with h | ⟨y, hy, hxy⟩
        · exact Or.inl (Or.inr h)
        · exact Or.inr ⟨y, Or.inr hy, hxy⟩
end

/-- The pass over a snapshot list, as a fold of single insertions. -/
def insertFold (b : Nat) (d : List DomNode) (ms : List DomNode) : List DomNode :=
  ms.foldl (fun d m => insertCloneAfterL b (nodeId m) d) d

theorem insertFold_nil (b : Nat) (d : List DomNode) : insertFold b d [] = d := rfl

theorem insertFold_cons (b : Nat) (d : List DomNode) (m : DomNode) (ms : List DomNode) :
    insertFold b d (m :: ms) = insertFold b (insertCloneAfterL b (nodeId m) d) ms := rfl

theorem insertFold_append_ms (b : Nat) (d : List DomNode) (ms1 ms2 : List DomNode) :
    insertFold b d (ms1 ++ ms2) = insertFold b (insertFold b d ms1) ms2 :=
  List.foldl_append _ _ _ _

theorem insertFold_append_right (b : Nat) (ms l1 l2 : List DomNode)
    (h : ∀ m ∈ ms, insertCloneAfterL b (nodeId m) l2 = l2) :
    insertFold b (l1 ++ l2) ms = insertFold b l1 ms ++ l2 := by
  induction ms generalizing l1 with
  | nil => rfl
  | cons m ms ih =>
    rw [insertFold_cons, insertFold_cons, insert_append, h m (List.mem_cons_self m ms)]
    exact ih _ (fun m2 hm2 => h m2 (List.mem_cons_of_mem m hm2))

theorem insertFold_append_left (b : Nat) (ms l1 l2 : List DomNode)
    (h : ∀ m ∈ ms, insertCloneAfterL b (nodeId m) l1 = l1) :
    insertFold b (l1 ++ l2) ms = l1 ++ insertFold b l2 ms := by
  induction ms generalizing l2 with
  | nil => rfl
  | cons m ms ih =>
    rw [insertFold_cons, insertFold_cons, insert_append, h m (List.mem_cons_self m ms)]
    exact ih _ (fun m2 hm2 => h m2 (List.mem_cons_of_mem m hm2))

theorem insertFold_head_node (b : Nat) (ms : List DomNode) (i : Nat) (a : List String)
    (rest : List DomNode)
    (hne : ∀ m ∈ ms, nodeId m ≠ i)
    (hrest : ∀ m ∈ ms, insertCloneAfterL b (nodeId m) rest = rest) :
    ∀ kids, insertFold b (DomNode.el i a kids :: rest) ms
      = DomNode.el i a (insertFold b kids ms) :: rest := by
  induction ms with
  | nil => intro kids; rfl
  | cons m ms ih =>
    intro kids
    have hstep : insertCloneAfterL b (nodeId m) (DomNode.el i a kids :: rest)
        = DomNode.el i a (insertCloneAfterL b (nodeId m) kids) :: rest := by
      simp only [insertCloneAfterL, insertCloneAfterN]
      rw [if_neg (Ne.symm (hne m (List.mem_cons_self m ms)) :
            nodeId (DomNode.el i a kids) ≠ nodeId m),
        hrest m (List.mem_cons_self m ms)]
    rw [insertFold_cons, hstep, insertFold_cons]
    exact ih (fun m2 hm2 => hne m2 (List.mem_cons_of_mem m hm2))
      (fun m2 hm2 => hrest m2 (List.mem_cons_of_mem m hm2)) _

theorem insertFold_eq_dupL (b : Nat) :
    ∀ l : List DomNode, (idsL l).Nodup → (∀ x ∈ idsL l, x < b) →
      insertFold b l (marqueesL l) = dupL b l
  | [] => by intro _ _; rfl
  | (DomNode.el i a kids) :: cs => by
    intro hnodup hbound
    have hids : idsL (DomNode.el i a kids :: cs) = (i :: idsL kids) ++ idsL cs := by
      simp [idsL, idsN]
    rw [hids] at hnodup hbound
    rw [List.nodup_append] at hnodup
    obtain ⟨hhead, hcs_nodup, hdisj⟩ := hnodup
    have hik : i ∉ idsL kids := by
      intro hmem
      exact (List.nodup_cons.mp hhead).1 hmem
    have hkids_nodup : (idsL kids).Nodup := (List.nodup_cons.mp hhead).2
    have hics : i ∉ idsL cs := fun hmem => hdisj (List.mem_cons_self i _) hmem
    have hdisjk : ∀ x ∈ idsL kids, x ∉ idsL cs :=
      fun x hx => hdisj (List.mem_cons_of_mem i hx)
    have hbk : ∀ x ∈ idsL kids, x < b :=
      fun x hx => hbound x (List.mem_append_left _ (List.mem_cons_of_mem i hx))
    have hbc : ∀ x ∈ idsL cs, x < b := fun x hx => hbound x (List.mem_append_right _ hx)
    have hkidsmq : ∀ m ∈ marqueesL kids, nodeId m ∈ idsL kids :=
      fun m hm => marquee_mem_ids_L kids m hm
    have hcsmq : ∀ m ∈ marqueesL cs, nodeId m ∈ idsL cs :=
      fun m hm => marquee_mem_ids_L cs m hm
    have hneKids : ∀ m ∈ marqueesL kids, nodeId m ≠ i :=
      fun m hm h => hik (h ▸ hkidsmq m hm)
    have hKidsCs : ∀ m ∈ marqueesL kids, insertCloneAfterL b (nodeId m) cs = cs :=
      fun m hm => insert_noop_L b _ cs (hdisjk (nodeId m) (hkidsmq m hm))
    have hshiftid : nodeId (shiftN b (DomNode.el i a kids)) = i + b := rfl
    have hShiftNoop : ∀ m ∈ marqueesL kids,
        insertCloneAfterN b (nodeId m) (shiftN b (DomNode.el i a kids))
          = shiftN b (DomNode.el i a kids) := by
      intro m hm
      apply insert_noop_N
      rw [ids_shiftN, List.mem_map]
      rintro ⟨y, _, hy⟩
      have : nodeId m < b := hbk _ (hkidsmq m hm)
      omega
    have hKidsShiftCs : ∀ m ∈ marqueesL kids,
        insertCloneAfterL b (nodeId m) (shiftN b (DomNode.el i a kids) :: cs)
          = shiftN b (DomNode.el i a kids) :: cs := by
      intro m hm
      simp only [insertCloneAfterL]
      rw [if_neg (by
        rw [hshiftid]
        have : nodeId m < b := hbk _ (hkidsmq m hm)
        omega)]
      rw [hShiftNoop m hm, hKidsCs m hm]
    have hCsHead : ∀ m ∈ marqueesL cs,
        insertCloneAfterN b (nodeId m) (dupN b (DomNode.el i a kids))
          = dupN b (DomNode.el i a kids) := by
      intro m hm
      apply insert_noop_N
      intro hmem
      rcases ids_dupN b _ _ hmem with hin | ⟨y, hy, hxy⟩
      · simp only [idsN, List.mem_cons] at hin
        rcases hin with hin | hin
        · exact hics (hin ▸ hcsmq m hm)
        · exact hdisjk _ hin (hcsmq m hm)
      · have : nodeId m < b := hbc _ (hcsmq m hm)
        omega
    have hCsShift : ∀ m ∈ marqueesL cs,
        insertCloneAfterN b (nodeId m) (shiftN b (DomNode.el i a kids))
          = shiftN b (DomNode.el i a kids) := by
      intro m hm
      apply insert_noop_N
      rw [ids_shiftN, List.mem_map]
      rintro ⟨y, _, hy⟩
      have : nodeId m < b := hbc _ (hcsmq m hm)
      omega
    have hdup_node : dupN b (DomNode.el i a kids) = DomNode.el i a (dupL b kids) := rfl
    by_cases hq : matchesSel marqueeSel (DomNode.el i a kids)
    · have hmq : marqueesL (DomNode.el i a kids :: cs)
          = DomNode.el i a kids :: (marqueesL kids ++ marqueesL cs) := by
        simp [marqueesL, marqueesN, hq]
      rw [hmq, insertFold_cons]
      have hstepA : insertCloneAfterL b (nodeId (DomNode.el i a kids))
          (DomNode.el i a kids :: cs)
          = DomNode.el i a kids :: shiftN b (DomNode.el i a kids) :: cs := by
        simp only [insertCloneAfterL]
        rw [if_pos trivial, insert_noop_L b _ cs (by
          show nodeId (DomNode.el i a kids) ∉ idsL cs
          exact hics)]
      rw [hstepA, insertFold_append_ms]
      rw [insertFold_head_node b (marqueesL kids) i a
        (shiftN b (DomNode.el i a kids) :: cs) hneKids hKidsShiftCs kids]
      rw [insertFold_eq_dupL b kids hkids_nodup hbk]
      have hstepC : insertFold b
          (DomNode.el i a (dupL b kids) :: shiftN b (DomNode.el i a kids) :: cs)
          (marqueesL cs)
          = DomNode.el i a (dupL b kids) :: shiftN b (DomNode.el i a kids)
              :: insertFold b cs (marqueesL cs) := by
        have := insertFold_append_left b (marqueesL cs)
          [DomNode.el i a (dupL b kids), shiftN b (DomNode.el i a kids)] cs
          (by
            intro m hm
            simp only [insertCloneAfterL]
            rw [if_neg (by
              show ¬ (nodeId (DomNode.el i a (dupL b kids)) = nodeId m)
              intro hh
              have hmi : nodeId m = i := by
                rw [← hh]
                rfl
              exact hics (hmi ▸ hcsmq m hm))]
            rw [if_neg (by
              rw [hshiftid]
              have : nodeId m < b := hbc _ (hcsmq m hm)
              omega)]
            rw [← hdup_node, hCsHead m hm, hCsShift m hm])
        simpa using this
      rw [hstepC, insertFold_eq_dupL b cs hcs_nodup hbc]
      show _ = dupL b (DomNode.el i a kids :: cs)
      simp [dupL, hq, hdup_node]
    · have hmq : marqueesL (DomNode.el i a kids :: cs)
          = marqueesL kids ++ marqueesL cs := by
        simp [marqueesL, marqueesN, hq]
      rw [hmq, insertFold_append_ms]
      rw [insertFold_head_node b (marqueesL kids) i a cs hneKids hKidsCs kids]
      rw [insertFold_eq_dupL b kids hkids_nodup hbk]
      have hstepC : insertFold b (DomNode.el i a (dupL b kids) :: cs) (marqueesL cs)
          = DomNode.el i a (dupL b kids) :: insertFold b cs (marqueesL cs) := by
        have := insertFold_append_left b (marqueesL cs)
          [DomNode.el i a (dupL b kids)] cs
          (by
            intro m hm
            simp only [insertCloneAfterL]
            rw [if_neg (by
              show ¬ (nodeId (DomNode.el i a (dupL b kids)) = nodeId m)
              intro hh
              have hmi : nodeId m = i := by
                rw [← hh]
                rfl
              exact hics (hmi ▸ hcsmq m hm))]
            rw [← hdup_node, hCsHead m hm])
        simpa using this
      rw [hstepC, insertFold_eq_dupL b cs hcs_nodup hbc]
      show _ = dupL b (DomNode.el i a kids :: cs)
      simp [dupL, hq, hdup_node]

mutual
theorem count_dupN (b : Nat) : ∀ n : DomNode, (idsN (dupN b n)).length
    = (idsN n).length + ((marqueesL (match n with | .el _ _ cs => cs)).map
        (fun m => (idsN m).length)).sum
  | .el i a kids => by
    simp only [dupN, idsN, List.length_cons]
    rw [count_dupL b kids]
    omega
theorem count_dupL (b : Nat) : ∀ l : List DomNode, (idsL (dupL b l)).length
    = (idsL l).length + ((marqueesL l).map (fun m => (idsN m).length)).sum
  | [] => rfl
  | DomNode.el i a kids :: cs => by
    have hk := count_dupL b kids
    have hc := count_dupL b cs
    have hshift2 : (idsN (shiftN b (DomNode.el i a kids))).length
        = 1 + (idsL kids).length := by
      rw [ids_shiftN, List.length_map]
      simp [idsN]
      omega
    have e0 : (idsL (DomNode.el i a kids :: cs)).length
        = 1 + (idsL kids).length + (idsL cs).length := by
      simp [idsL, idsN]
      omega
    by_cases hq : matchesSel marqueeSel (DomNode.el i a kids)
    · have e1 : (idsL (dupL b (DomNode.el i a kids :: cs))).length
          = 1 + (idsL (dupL b kids)).length
            + (idsN (shiftN b (DomNode.el i a kids))).length
            + (idsL (dupL b cs)).length := by
        simp [dupL, hq, idsL, idsN, dupN]
        omega
      have e2 : ((marqueesL (DomNode.el i a kids :: cs)).map
            (fun m => (idsN m).length)).sum
          = (1 + (idsL kids).length)
            + ((marqueesL kids).map (fun m => (idsN m).length)).sum
            + ((marqueesL cs).map (fun m => (idsN m).length)).sum := by
        simp [marqueesL, marqueesN, hq, idsN]
        omega
      rw [e1, e0, e2]
      omega
    · have e1 : (idsL (dupL b (DomNode.el i a kids :: cs))).length
          = 1 + (idsL (dupL b kids)).length + (idsL (dupL b cs)).length := by
        simp [dupL, hq, idsL, idsN, dupN]
        omega
      have e2 : ((marqueesL (DomNode.el i a kids :: cs)).map
            (fun m => (idsN m).length)).sum
          = ((marqueesL kids).map (fun m => (idsN m).length)).sum
            + ((marqueesL cs).map (fun m => (idsN m).length)).sum := by
        simp [marqueesL, marqueesN, hq, idsN]
      rw [e1, e0, e2]
      omega
end

mutual
theorem nextSib_none_N (k : Nat) : ∀ n : DomNode, k ∉ idsN n → nextSibN k n = none
  | .el i a cs => by
    intro h
    simp only [idsN, List.mem_cons, not_or] at h
    simp only [nextSibN]
    exact nextSib_none_L k cs h.2
theorem nextSib_none_L (k : Nat) : ∀ l : List DomNode, k ∉ idsL l → nextSibL k l = none
  | [] => by intro _; rfl
  | c :: cs => by
    intro h
    simp only [idsL, List.mem_append, not_or] at h
    simp only [nextSibL]
    rw [if_neg (fun hck : nodeId c = k => h.1 (hck ▸ nodeId_mem_idsN c)),
      nextSib_none_N k c h.1]
    exact nextSib_none_L k cs h.2
end

theorem nextSib_dupL (b : Nat) :
    ∀ l : List DomNode, (idsL l).Nodup → (∀ x ∈ idsL l, x < b) →
      ∀ m ∈ marqueesL l, nextSibL (nodeId m) (dupL b l) = some (shiftN b m)
  | [] => by
    intro _ _ m hm
    exact absurd hm (List.not_mem_nil m)
  | (DomNode.el i a kids) :: cs => by
    intro hnodup hbound m hm
    have hids : idsL (DomNode.el i a kids :: cs) = (i :: idsL kids) ++ idsL cs := by
      simp [idsL, idsN]
    rw [hids] at hnodup hbound
    rw [List.nodup_append] at hnodup
    obtain ⟨hhead, hcs_nodup, hdisj⟩ := hnodup
    have hik : i ∉ idsL kids := (List.nodup_cons.mp hhead).1
    have hkids_nodup : (idsL kids).Nodup := (List.nodup_cons.mp hhead).2
    have hics : i ∉ idsL cs := fun hmem => hdisj (List.mem_cons_self i _) hmem
    have hdisjk : ∀ x ∈ idsL kids, x ∉ idsL cs :=
      fun x hx => hdisj (List.mem_cons_of_mem i hx)
    have hbk : ∀ x ∈ idsL kids, x < b :=
      fun x hx => hbound x (List.mem_append_left _ (List.mem_cons_of_mem i hx))
    have hbc : ∀ x ∈ idsL cs, x < b := fun x hx => hbound x (List.mem_append_right _ hx)
    have hdupid : nodeId (dupN b (DomNode.el i a kids)) = i := rfl
    have hshiftid : nodeId (shiftN b (DomNode.el i a kids)) = i + b := rfl
    have hKidsCase : ∀ m2 ∈ marqueesL kids,
        nextSibN (nodeId m2) (dupN b (DomNode.el i a kids)) = some (shiftN b m2) := by
      intro m2 hm2
      show nextSibL (nodeId m2) (dupL b kids) = some (shiftN b m2)
      exact nextSib_dupL b kids hkids_nodup hbk m2 hm2
    have hCsNotInDup : ∀ m2 ∈ marqueesL cs,
        nextSibN (nodeId m2) (dupN b (DomNode.el i a kids)) = none := by
      intro m2 hm2
      apply nextSib_none_N
      intro hmem
      have ht := marquee_mem_ids_L cs m2 hm2
      rcases ids_dupN b _ _ hmem with hin | ⟨y, hy, hxy⟩
      · simp only [idsN, List.mem_cons] at hin
        rcases hin with hin | hin
        · exact hics (hin ▸ ht)
        · exact hdisjk _ hin ht
      · have : nodeId m2 < b := hbc _ ht
        omega
    have hCsNotInShift : ∀ m2 ∈ marqueesL cs,
        nextSibN (nodeId m2) (shiftN b (DomNode.el i a kids)) = none := by
      intro m2 hm2
      apply nextSib_none_N
      rw [ids_shiftN, List.mem_map]
      rintro ⟨y, _, hy⟩
      have : nodeId m2 < b := hbc _ (marquee_mem_ids_L cs m2 hm2)
      omega
    by_cases hq : matchesSel marqueeSel (DomNode.el i a kids)
    · have hmq : marqueesL (DomNode.el i a kids :: cs)
          = DomNode.el i a kids :: (marqueesL kids ++ marqueesL cs) := by
        simp [marqueesL, marqueesN, hq]
      rw [hmq] at hm
      have hdup : dupL b (DomNode.el i a kids :: cs)
          = dupN b (DomNode.el i a kids) :: shiftN b (DomNode.el i a kids)
              :: dupL b cs := by
        simp [dupL, hq]
      rw [hdup]
      rcases List.mem_cons.mp hm with hm | hm
      · subst hm
        simp only [nextSibL]
        rw [if_pos (show nodeId (dupN b (DomNode.el i a kids))
          = nodeId (DomNode.el i a kids) from hdupid)]
        rfl
      · rcases List.mem_append.mp hm with hm | hm
        · have ht : nodeId m ∈ idsL kids := marquee_mem_ids_L kids m hm
          simp only [nextSibL]
          rw [if_neg (by rw [hdupid]; intro hh; exact hik (hh ▸ ht)),
            hKidsCase m hm]
        · have ht : nodeId m ∈ idsL cs := marquee_mem_ids_L cs m hm
          simp only [nextSibL]
          rw [if_neg (by rw [hdupid]; intro hh; exact hics (hh ▸ ht)),
            hCsNotInDup m hm]
          rw [if_neg (by
              rw [hshiftid]
              have : nodeId m < b := hbc _ ht
              omega),
            hCsNotInShift m hm]
          exact nextSib_dupL b cs hcs_nodup hbc m hm
    · have hmq : marqueesL (DomNode.el i a kids :: cs)
          = marqueesL kids ++ marqueesL cs := by
        simp [marqueesL, marqueesN, hq]
      rw [hmq] at hm
      have hdup : dupL b (DomNode.el i a kids :: cs)
          = dupN b (DomNode.el i a kids) :: dupL b cs := by
        simp [dupL, hq]
      rw [hdup]
      rcases List.mem_append.mp hm with hm | hm
      · have ht : nodeId m ∈ idsL kids := marquee_mem_ids_L kids m hm
        simp only [nextSibL]
        rw [if_neg (by rw [hdupid]; intro hh; exact hik (hh ▸ ht)),
          hKidsCase m hm]
      · have ht : nodeId m ∈ idsL cs := marquee_mem_ids_L cs m hm
        simp only [nextSibL]
        rw [if_neg (by rw [hdupid]; intro hh; exact hics (hh ▸ ht)),
          hCsNotInDup m hm]
        exact nextSib_dupL b cs hcs_nodup hbc m hm

/-- C9.  Marquee duplication pass: over a document with distinct element
identities all below the clone bound `b`, one invocation of
`duplicateMarqueeList` equals the one-clone-per-original transformation
`dupL`; it adds exactly one clone (of the original subtree) per snapshot
element, so the node count grows by the summed subtree sizes of the K
matches; every original match ends with its deep copy as its immediate next
sibling; and the processed snapshot — taken before any mutation, in document
order — contains only original elements (ids below `b`), never a clone
created by the same pass. -/
theorem duplicateMarqueeList_spec (b : Nat) (doc : List DomNode)
    (hnodup : (idsL doc).Nodup) (hbound : ∀ x ∈ idsL doc, x < b) :
    duplicateMarqueeList b doc = dupL b doc ∧
    (idsL (duplicateMarqueeList b doc)).length
      = (idsL doc).length + ((marqueesL doc).map (fun m => (idsN m).length)).sum ∧
    (∀ m ∈ marqueesL doc,
      nextSibL (nodeId m) (duplicateMarqueeList b doc) = some (shiftN b m)) ∧
    (∀ m ∈ marqueesL doc, nodeId m < b) := by
  have heq : duplicateMarqueeList b doc = dupL b doc :=
    insertFold_eq_dupL b doc hnodup hbound
  refine ⟨heq, ?_, ?_, ?_⟩
  · rw [heq]
    exact count_dupL b doc
  · intro m hm
    rw [heq]
    exact nextSib_dupL b doc hnodup hbound m hm
  · intro m hm
    exact hbound _ (marquee_mem_ids_L doc m hm)

/-- The example document: two marquee lists (ids 1 and 3) under different
parents, plus an unrelated element. -/
def marqueeDocSample : List DomNode :=
  [DomNode.el 0 [] [DomNode.el 1 [marqueeSel] [],
                    DomNode.el 2 [] [DomNode.el 3 [marqueeSel] []]],
   DomNode.el 4 [] []]

theorem duplicateMarqueeList_spec_witness :
    ((idsL marqueeDocSample).Nodup ∧ (∀ x ∈ idsL marqueeDocSample, x < 10)) ∧
    (duplicateMarqueeList 10 marqueeDocSample = dupL 10 marqueeDocSample ∧
     (idsL (duplicateMarqueeList 10 marqueeDocSample)).length
       = (idsL marqueeDocSample).length
         + ((marqueesL marqueeDocSample).map (fun m => (idsN m).length)).sum ∧
     (∀ m ∈ marqueesL marqueeDocSample,
       nextSibL (nodeId m) (duplicateMarqueeList 10 marqueeDocSample)
         = some (shiftN 10 m)) ∧
     (∀ m ∈ marqueesL marqueeDocSample, nodeId m < 10)) :=
  ⟨⟨by decide, by decide⟩,
   duplicateMarqueeList_spec 10 marqueeDocSample (by decide) (by decide)⟩

/-! ## Slider sub-element scoping (`src/components/slider.ts` lines 21-37,
and the variant with owned `.swiper` filtering)

`Slider.initSliders` scans each component root and resolves its
sub-elements.  Descendants are enumerated in document order together with
their ancestor chain up to the root (nearest ancestor first, the root last),
which is what `el.closest(...)` inspects: since every scanned root matches
the component selector, `closest` never needs to look above the root. -/

/-- Selector tokens used by the slider components. -/
def componentSel : String := "data-slider-el=component"

def swiperSel : String := "class=swiper"

def navPrevSel : String := "data-slider-el=nav-prev"

def navNextSel : String := "data-slider-el=nav-next"

def paginationSel : String := "data-slider-el=pagination"

/-- The pagination selector list
`'[data-slider-el="pagination"], .swiper-pagination'`. -/
def matchesPagination (n : DomNode) : Bool :=
  matchesSel paginationSel n || matchesSel "class=swiper-pagination" n

mutual
/-- Descendants of a node in document order, paired with the ancestor chain
up to the scan root (nearest first). -/
def descChainsN (anc : List DomNode) : DomNode → List (DomNode × List DomNode)
  | .el i a cs => descChainsL (DomNode.el i a cs :: anc) cs
/-- Descendants of a forest in document order, with ancestor chains. -/
def descChainsL (anc : List DomNode) : List DomNode → List (DomNode × List DomNode)
  | [] => []
  | c :: cs => (c, anc) :: (descChainsN anc c ++ descChainsL anc cs)
end

/-- `root.querySelectorAll(sel)`: matching descendants of the root in
document order, with their chains. -/
def queryAllIn (pred : DomNode → Bool) (root : DomNode) : List (DomNode × List DomNode) :=
  (descChainsN [] root).filter (fun p => pred p.1)

/-- The test `el.closest(COMPONENT_SELECTOR) === swiperComponent`: walk from
the element itself up the chain to the first component match and compare its
identity with the root. -/
def ownedBy (root : DomNode) (p : DomNode × List DomNode) : Bool :=
  match (p.1 :: p.2).find? (matchesSel componentSel) with
  | some r2 => nodeId r2 == nodeId root
  | none => false

/-- `src/components/slider.ts` line 22:
`swiperComponent.querySelector('.swiper')` — the plain first `.swiper`
descendant in document order, with no closest-root filtering. -/
def sliderTs_swiperEl (root : DomNode) : Option (DomNode × List DomNode) :=
  (queryAllIn (matchesSel swiperSel) root).head?

/-- `src/components/slider.ts` lines 29-32: the nav-prev button, filtered by
`closest(COMPONENT_SELECTOR) === swiperComponent`. -/
def sliderTs_navPrevEl (root : DomNode) : Option (DomNode × List DomNode) :=
  (queryAllIn (matchesSel navPrevSel) root).find? (ownedBy root)

/-- `src/components/slider.ts` lines 34-37: the nav-next button, filtered
the same way. -/
def sliderTs_navNextEl (root : DomNode) : Option (DomNode × List DomNode) :=
  (queryAllIn (matchesSel navNextSel) root).find? (ownedBy root)

/-- `src/components/slider.ts` lines 49-52: the optional pagination element,
filtered the same way. -/
def sliderTs_paginationEl (root : DomNode) : Option (DomNode × List DomNode) :=
  (queryAllIn matchesPagination root).find? (ownedBy root)

/-- The variant `Slider.initSliders` with owned `.swiper` filtering
(`src/unnamed/part_003` lines 27-32): `ownedSwiperEls` keeps only the
`.swiper` descendants whose closest component root is this root, and the
first one is bound. -/
def variantOwned_swiperEl (root : DomNode) : Option (DomNode × List DomNode) :=
  ((queryAllIn (matchesSel swiperSel) root).filter (ownedBy root)).head?

/-- A nested pair of slider components: the outer root (id 1) contains a
nested component (id 2, with its own `.swiper` id 3 and nav-prev id 4)
before the outer component's own `.swiper` (id 5), nav buttons (ids 6, 7)
and pagination (id 8). -/
def sliderRootSample : DomNode :=
  DomNode.el 1 [componentSel]
    [DomNode.el 2 [componentSel]
       [DomNode.el 3 [swiperSel] [], DomNode.el 4 [navPrevSel] []],
     DomNode.el 5 [swiperSel] [],
     DomNode.el 6 [navPrevSel] [],
     DomNode.el 7 [navNextSel] [],
     DomNode.el 8 [paginationSel] []]

/-- C6 counterexample.  In `sliderRootSample`, the `.swiper` bound to the
outer instance by `src/components/slider.ts` is the nested component's
`.swiper` (id 3), whose closest component root is the inner root — not the
outer root — so the claim fails for the `.swiper` binding of that variant.
The owned-filtering variant binds the outer component's own `.swiper`
(id 5) instead. -/
theorem sliderTs_swiper_not_scoped_cex :
    (sliderTs_swiperEl sliderRootSample).map (fun p => nodeId p.1) = some 3 ∧
    (sliderTs_swiperEl sliderRootSample).map (fun p => ownedBy sliderRootSample p)
      = some false ∧
    (variantOwned_swiperEl sliderRootSample).map (fun p => nodeId p.1) = some 5 ∧
    (variantOwned_swiperEl sliderRootSample).map
        (fun p => ownedBy sliderRootSample p) = some true ∧
    (sliderTs_navPrevEl sliderRootSample).map (fun p => nodeId p.1) = some 6 :=
  ⟨rfl, rfl, rfl, rfl, rfl⟩

/-- C6 as amended.  For every component root, the nav-prev, nav-next and
pagination elements bound by `Slider.initSliders` are filtered by
`closest(COMPONENT_SELECTOR) === root`, so a bound one always matches its
selector and belongs to this root, never to a nested instance; the same
holds for the `.swiper` element in the owned-filtering variant.  The
`.swiper` bound by `src/components/slider.ts`, however, is only the first
`.swiper` descendant in document order and need not belong to this root
(see the counterexample). -/
theorem slider_scoping_owned (root : DomNode)
    (_hroot : matchesSel componentSel root = true) :
    (∀ p, sliderTs_navPrevEl root = some p →
        matchesSel navPrevSel p.1 = true ∧ ownedBy root p = true) ∧
    (∀ p, sliderTs_navNextEl root = some p →
        matchesSel navNextSel p.1 = true ∧ ownedBy root p = true) ∧
    (∀ p, sliderTs_paginationEl root = some p →
        matchesPagination p.1 = true ∧ ownedBy root p = true) ∧
    (∀ p, variantOwned_swiperEl root = some p →
        matchesSel swiperSel p.1 = true ∧ ownedBy root p = true) ∧
    (∀ p, sliderTs_swiperEl root = some p → matchesSel swiperSel p.1 = true) := by
  refine ⟨?_, ?_, ?_, ?_, ?_⟩
  · intro p hp
    constructor
    · have hmem := List.mem_of_find?_eq_some hp
      exact (List.mem_filter.mp hmem).2
    · exact List.find?_some hp
  · intro p hp
    constructor
    · have hmem := List.mem_of_find?_eq_some hp
      exact (List.mem_filter.mp hmem).2
    · exact List.find?_some hp
  · intro p hp
    constructor
    · have hmem := List.mem_of_find?_eq_some hp
      exact (List.mem_filter.mp hmem).2
    · exact List.find?_some hp
  · intro p hp
    have hmem : p ∈ (queryAllIn (matchesSel swiperSel) root).filter (ownedBy root) := by
      cases hl : (queryAllIn (matchesSel swiperSel) root).filter (ownedBy root) with
      | nil =>
        rw [variantOwned_swiperEl, hl] at hp
        exact absurd hp (by simp)
      | cons q qs =>
        rw [variantOwned_swiperEl, hl] at hp
        simp only [List.head?_cons, Option.some.injEq] at hp
        rw [← hp]
        exact List.mem_cons_self q qs
    rw [List.mem_filter] at hmem
    exact ⟨(List.mem_filter.mp hmem.1).2, hmem.2⟩
  · intro p hp
    have hmem : p ∈ queryAllIn (matchesSel swiperSel) root := by
      cases hl : queryAllIn (matchesSel swiperSel) root with
      | nil =>
        rw [sliderTs_swiperEl, hl] at hp
        exact absurd hp (by simp)
      | cons q qs =>
        rw [sliderTs_swiperEl, hl] at hp
        simp only [List.head?_cons, Option.some.injEq] at hp
        rw [← hp]
        exact List.mem_cons_self q qs
    exact (List.mem_filter.mp hmem).2

theorem slider_scoping_owned_witness :
    matchesSel componentSel sliderRootSample = true ∧
    (matchesSel navPrevSel (DomNode.el 6 [navPrevSel] []) = true ∧
     ownedBy sliderRootSample (DomNode.el 6 [navPrevSel] [], [sliderRootSample]) = true) ∧
    (matchesSel swiperSel (DomNode.el 5 [swiperSel] []) = true ∧
     ownedBy sliderRootSample (DomNode.el 5 [swiperSel] [], [sliderRootSample]) = true) :=
  ⟨by decide,
   (slider_scoping_owned sliderRootSample (by decide)).1
     (DomNode.el 6 [navPrevSel] [], [sliderRootSample]) (by rfl),
   (slider_scoping_owned sliderRootSample (by decide)).2.2.2.1
     (DomNode.el 5 [swiperSel] [], [sliderRootSample]) (by rfl)⟩

end Wesley
